import Mathlib

/-!
# syslog-cloudwatch-bridge: the dispatch pipeline of `main.go`

A shallow embedding of `main.go`: the aggregator loop of `main` (lines 69-86),
`sendToCloudWatch` (lines 91-131) and `makeMilliTimestamp` (lines 151-153).

Three collaborators of the program live outside the repository and are taken
as parameters:

* `sort.Slice` (Go standard library), parameter `sortSlice`, specified by its
  documented contract `SortSliceSpec`;
* `json.Marshal` (Go standard library), parameter `jsonMarshal`;
* `cloudwatchlogs.PutLogEvents` (AWS SDK), parameter `putLogEvents`.

A Go `string` is modelled by `String`, an `int64` by `Int` (with an explicit
wrap where the Go code can overflow), a panic by `Except.error`.
-/

namespace SyslogBridge

/-! ## Data model -/

/-- A `time.Time` value, identified with the instant it denotes: the number of
nanoseconds between the Unix epoch and the instant (negative before the epoch).
`time.Time` stores 64-bit seconds plus nanoseconds, so the count is not bounded
by the range of `int64`. -/
structure Time where
  unixNanos : Int
deriving DecidableEq, Repr

/-- `t.Before(u)`: the instant `t` is strictly earlier than `u`. -/
def Time.Before (t u : Time) : Bool := decide (t.unixNanos < u.unixNanos)

/-- Two's-complement wrap of an integer into the range of `int64`. -/
def wrapInt64 (n : Int) : Int := (n + 2 ^ 63) % 2 ^ 64 - 2 ^ 63

/-- `t.UnixNano()`: computed by Go in `int64` arithmetic as
`unixSec * 1e9 + nsec`, which wraps when the instant is outside the years
1678-2262. -/
def Time.UnixNano (t : Time) : Int := wrapInt64 t.unixNanos

/-- `int64(time.Millisecond)`: the number of nanoseconds in a millisecond. -/
def Millisecond : Int := 1000000

/-- `makeMilliTimestamp` (lines 151-153): `input.UnixNano() / int64(time.Millisecond)`
with Go's integer division, which truncates toward zero. -/
def makeMilliTimestamp (input : Time) : Int := Int.tdiv input.UnixNano Millisecond

/-- A value of type `interface{}` stored in a `format.LogParts` map. Only the
dynamic types the program asserts (`string`, `time.Time`) need to be told
apart; `int` is what the syslog parser stores for priorities, `other` stands
for a value of any other dynamic type. -/
inductive Value where
  | str (s : String)
  | int (n : Int)
  | time (t : Time)
  | other (tag : Nat)
deriving DecidableEq, Repr

/-- `format.LogParts`, a `map[string]interface{}`: the fields of one parsed
syslog record. `List.lookup` plays the role of the map index `m[k]`. -/
abbrev LogParts := List (String × Value)

/-- The two run-time panics `sendToCloudWatch` can raise. -/
inductive Panic where
  | typeAssertion
  | nilDereference
deriving DecidableEq, Repr

deriving instance DecidableEq for Except

/-- `cloudwatchlogs.InputLogEvent`. -/
structure InputLogEvent where
  Message : String
  Timestamp : Int
deriving DecidableEq, Repr

/-- `cloudwatchlogs.PutLogEventsInput`; a `nil` `SequenceToken` is `none`. -/
structure PutLogEventsInput where
  LogGroupName : String
  LogStreamName : String
  LogEvents : List InputLogEvent
  SequenceToken : Option String
deriving DecidableEq, Repr

/-- `cloudwatchlogs.PutLogEventsOutput`; `NextSequenceToken` is a `*string`. -/
structure PutLogEventsOutput where
  NextSequenceToken : Option String
deriving DecidableEq, Repr

/-- What `svc.PutLogEvents(params)` returns: `resp` (a pointer, possibly nil)
and `err` (nil on success). -/
structure CallResult where
  resp : Option PutLogEventsOutput
  err : Option String
deriving DecidableEq, Repr

/-- The parts of the program's environment that are not in `main.go`. -/
structure Env where
  /-- `sort.Slice(buffer, less)`, as a function of `less` and the slice. -/
  sortSlice : (LogParts → LogParts → Bool) → List LogParts → List LogParts
  /-- `json.Marshal(logPart)`: `some bytes` on success, `none` when it returns
  `(nil, err)`. -/
  jsonMarshal : LogParts → Option String
  /-- The package variable `logGroupName`. -/
  logGroupName : String
  /-- The package variable `streamName`, rendered by `String()`. -/
  streamName : String

/-! ## The contract of `sort.Slice` -/

/-- The requirement the `sort` package puts on `less`, over the elements of
the slice being sorted: irreflexive, transitive, and "if both `less(i, j)` and
`less(j, k)` are false then `less(i, k)` is false" (a strict weak ordering). -/
def StrictWeakOn {α : Type} (lt : α → α → Bool) (xs : List α) : Prop :=
  (∀ a ∈ xs, lt a a = false) ∧
  (∀ a ∈ xs, ∀ b ∈ xs, ∀ c ∈ xs, lt a b = true → lt b c = true → lt a c = true) ∧
  (∀ a ∈ xs, ∀ b ∈ xs, ∀ c ∈ xs, lt a b = false → lt b c = false → lt a c = false)

/-- The result is sorted in the sense of `sort.SliceIsSorted`: no element is
`less` than the one just before it. -/
def SliceIsSorted {α : Type} (lt : α → α → Bool) (xs : List α) : Prop :=
  List.Chain' (fun a b => lt b a = false) xs

/-- The documented contract of `sort.Slice`: given a `less` that orders the
elements of the slice, the slice is rearranged (a permutation) so that it is
sorted. The documentation adds that the sort is not guaranteed to be stable,
so the contract says nothing about elements that compare equal. -/
def SortSliceSpec (sortSlice : (LogParts → LogParts → Bool) → List LogParts → List LogParts) :
    Prop :=
  ∀ (lt : LogParts → LogParts → Bool) (xs : List LogParts), StrictWeakOn lt xs →
    (sortSlice lt xs).Perm xs ∧ SliceIsSorted lt (sortSlice lt xs)

/-- Insertion of `x` into a sorted list, after the elements that are not
greater than `x`. -/
def insertAfterEqual {α : Type} (lt : α → α → Bool) (x : α) : List α → List α
  | [] => [x]
  | y :: ys => if lt x y then x :: y :: ys else y :: insertAfterEqual lt x ys

/-- An insertion sort that meets `SortSliceSpec`; it builds the result from
the right, so records that compare equal come out in reverse arrival order. -/
def insertionSortRev {α : Type} (lt : α → α → Bool) : List α → List α
  | [] => []
  | x :: xs => insertAfterEqual lt x (insertionSortRev lt xs)

/-- Insertion of `x` into a sorted list, before the elements that are not
smaller than `x`. -/
def insertBeforeEqual {α : Type} (lt : α → α → Bool) (x : α) : List α → List α
  | [] => [x]
  | y :: ys => if lt y x then y :: insertBeforeEqual lt x ys else x :: y :: ys

/-- A stable insertion sort that meets `SortSliceSpec`. -/
def insertionSortStable {α : Type} (lt : α → α → Bool) : List α → List α
  | [] => []
  | x :: xs => insertBeforeEqual lt x (insertionSortStable lt xs)

/-! ## `sendToCloudWatch` -/

/-- The type assertion `v.(time.Time)` on the result of a map index. -/
def assertTime : Option Value → Except Panic Time
  | some (Value.time t) => Except.ok t
  | _ => Except.error Panic.typeAssertion

/-- The type assertion `v.(string)` on the result of a map index. -/
def assertString : Option Value → Except Panic String
  | some (Value.str s) => Except.ok s
  | _ => Except.error Panic.typeAssertion

/-- The record holds a `time.Time` under `"timestamp"`. -/
def hasTimestamp (logPart : LogParts) : Bool :=
  match logPart.lookup "timestamp" with
  | some (Value.time _) => true
  | _ => false

/-- The record holds a `string` under `"content"`. -/
def hasContent (logPart : LogParts) : Bool :=
  match logPart.lookup "content" with
  | some (Value.str _) => true
  | _ => false

/-- The closure handed to `sort.Slice` on line 102, on two records that both
hold a `time.Time` timestamp: the first timestamp is `Before` the second. On
any other pair the Go closure panics; `sendToCloudWatch` below never calls
`less` on such a pair. -/
def less (a b : LogParts) : Bool :=
  match a.lookup "timestamp", b.lookup "timestamp" with
  | some (Value.time ta), some (Value.time tb) => ta.Before tb
  | _, _ => false

/-- Lines 106-116, the body of the loop: the event built for one record. -/
def encodeEvent (env : Env) (useJson : Bool) (logPart : LogParts) :
    Except Panic InputLogEvent := do
  let event_str ←
    if useJson then
      -- `json_bytes,_ := json.Marshal(logPart)`: the error is discarded and
      -- `string(nil)` is the empty string
      pure ((env.jsonMarshal logPart).getD "")
    else
      assertString (logPart.lookup "content")
  let ts ← assertTime (logPart.lookup "timestamp")
  pure { Message := event_str, Timestamp := makeMilliTimestamp ts }

/-- Lines 104-117: one event per record of the (sorted) buffer, in order; the
first failing assertion aborts the loop. -/
def encodeAll (env : Env) (useJson : Bool) : List LogParts → Except Panic (List InputLogEvent)
  | [] => Except.ok []
  | logPart :: rest => do
    let e ← encodeEvent env useJson logPart
    let es ← encodeAll env useJson rest
    pure (e :: es)

/-- Line 102: the buffer after `sort.Slice`. -/
def sortedBuffer (env : Env) (buffer : List LogParts) : List LogParts :=
  env.sortSlice less buffer

/-- Lines 97-122: the request `sendToCloudWatch` builds.

When some record has no `time.Time` under `"timestamp"` the call panics
before any request exists: either the closure of line 102 hits the record
during the sort, or (when the sort never compares it, as for a one-record
buffer) line 115 does. Both are the same failed assertion, so the model
raises it up front and sorts only buffers on which the closure is total. -/
def buildRequest (env : Env) (useJson : Bool) (buffer : List LogParts)
    (sequenceToken : String) : Except Panic PutLogEventsInput :=
  if buffer.all hasTimestamp then do
    let events ← encodeAll env useJson (sortedBuffer env buffer)
    pure
      { LogGroupName := env.logGroupName
        LogStreamName := env.streamName
        LogEvents := events
        -- lines 119-122
        SequenceToken := if sequenceToken ≠ "" then some sequenceToken else none }
  else
    Except.error Panic.typeAssertion

/-- What one call of `sendToCloudWatch` did: the append request it issued (if
it got that far) and how it ended, with the value the package variable
`sequenceToken` has on return. -/
structure SendResult where
  request : Option PutLogEventsInput
  outcome : Except Panic String

/-- `sendToCloudWatch` (lines 91-131). `putLogEvents` is the reply of the
remote service to this call. Lines 125-128 only write to the log; line 130
dereferences `resp` and `resp.NextSequenceToken` whatever `err` is. -/
def sendToCloudWatch (env : Env) (putLogEvents : PutLogEventsInput → CallResult)
    (useJson : Bool) (buffer : List LogParts) (sequenceToken : String) : SendResult :=
  match buildRequest env useJson buffer sequenceToken with
  | Except.error p => { request := none, outcome := Except.error p }
  | Except.ok params =>
    -- line 124
    let r := putLogEvents params
    -- line 130: `sequenceToken = *resp.NextSequenceToken`
    match r.resp with
    | none => { request := some params, outcome := Except.error Panic.nilDereference }
    | some out =>
      match out.NextSequenceToken with
      | none => { request := some params, outcome := Except.error Panic.nilDereference }
      | some tok => { request := some params, outcome := Except.ok tok }

/-! ## The aggregator loop of `main` -/

/-- The two cases of the `select` on lines 75-84. -/
inductive LoopEvent where
  | tick
  | logParts (r : LogParts)
deriving DecidableEq, Repr

/-- The state of the goroutine of lines 69-86 and of the package variable
`sequenceToken`, with three history fields: the requests sent to the remote
service so far, the buffers handed to `sendToCloudWatch` so far, and the panic
that killed the process, if any. -/
structure LoopState where
  loglist : List LogParts
  sequenceToken : String
  requests : List PutLogEventsInput
  handed : List (List LogParts)
  crashed : Option Panic

/-- The state at line 73: `loglist` empty, `sequenceToken` as declared on
line 28. -/
def LoopState.init : LoopState :=
  { loglist := [], sequenceToken := "", requests := [], handed := [], crashed := none }

/-- One iteration of the `for`/`select` loop (lines 74-85). `remote n` is the
reply of the remote service to the `n`-th `PutLogEvents` call (counted
from 0). -/
def loopStep (env : Env) (remote : Nat → PutLogEventsInput → CallResult) (useJson : Bool)
    (s : LoopState) : LoopEvent → LoopState
  | LoopEvent.tick =>
    if s.loglist.length ≤ 0 then
      s
    else
      let r := sendToCloudWatch env (remote s.requests.length) useJson s.loglist s.sequenceToken
      match r.outcome with
      | Except.ok tok =>
        { loglist := []
          sequenceToken := tok
          requests := s.requests ++ r.request.toList
          handed := s.handed ++ [s.loglist]
          crashed := none }
      | Except.error p =>
        { loglist := s.loglist
          sequenceToken := s.sequenceToken
          requests := s.requests ++ r.request.toList
          handed := s.handed ++ [s.loglist]
          crashed := some p }
  | LoopEvent.logParts r => { s with loglist := s.loglist ++ [r] }

/-- The loop over a finite sequence of events; a panic ends the process, so
later events are not processed. -/
def loopRun (env : Env) (remote : Nat → PutLogEventsInput → CallResult) (useJson : Bool) :
    LoopState → List LoopEvent → LoopState
  | s, [] => s
  | s, e :: es =>
    if s.crashed.isSome then s else loopRun env remote useJson (loopStep env remote useJson s e) es

/-! ## Reading the fields of a record -/

/-- The `time.Time` stored under `"timestamp"`, when there is one. -/
def timestampOf (logPart : LogParts) : Option Time :=
  match logPart.lookup "timestamp" with
  | some (Value.time t) => some t
  | _ => none

/-- The `string` stored under `"content"`, when there is one. -/
def contentOf (logPart : LogParts) : Option String :=
  match logPart.lookup "content" with
  | some (Value.str s) => some s
  | _ => none

/-- The record `a` is not later than the record `b`: both carry a timestamp
and the one of `b` is not before the one of `a`. -/
def NotLater (a b : LogParts) : Prop :=
  ∃ ta tb, timestampOf a = some ta ∧ timestampOf b = some tb ∧ tb.Before ta = false

/-! ## Concrete inputs of the worked examples -/

/-- A record with the two fields the program reads. -/
def mkRecord (nanos : Int) (content : String) : LogParts :=
  [("timestamp", Value.time { unixNanos := nanos }), ("content", Value.str content)]

/-- An environment whose `sort.Slice` is the stable insertion sort. -/
def stableEnv : Env :=
  { sortSlice := insertionSortStable
    jsonMarshal := fun _ => some "{}"
    logGroupName := "group"
    streamName := "stream" }

/-- A successful reply of the remote service carrying the token `tok`. -/
def okReply (tok : String) : PutLogEventsInput → CallResult :=
  fun _ => { resp := some { NextSequenceToken := some tok }, err := none }

/-- Three records stamped 10:00:02, 10:00:00 and 10:00:01 (as nanoseconds of
the day) with contents `"c"`, `"a"`, `"b"`. -/
def batchCAB : List LogParts :=
  [mkRecord 36002000000000 "c", mkRecord 36000000000000 "a", mkRecord 36001000000000 "b"]

/-! ## The Go runtime's `sort.Slice`

`sort.Slice` is not part of the repository. To see what the program does with
records that carry equal timestamps, the two algorithms the Go standard
library has shipped behind `sort.Slice` are transcribed here from package
`sort`: the quicksort of Go 1.8 to 1.18 (`quickSort_func`) and the
pattern-defeating quicksort of Go 1.19 and later (`pdqsort_func`). Both work
on the slice through `Less(i, j)` and `Swap(i, j)`.

Every loop runs on fuel and yields `none` when the fuel runs out, so a result
`some data` is the result of a complete run. -/

/-- `data.Less(i, j)`: the `less` closure on the elements at `i` and `j`. -/
def lessAt {α : Type} (lt : α → α → Bool) (data : List α) (i j : Nat) : Bool :=
  match data[i]?, data[j]? with
  | some x, some y => lt x y
  | _, _ => false

/-- `data.Swap(i, j)`. -/
def swapAt {α : Type} (data : List α) (i j : Nat) : List α :=
  match data[i]?, data[j]? with
  | some x, some y => (data.set i y).set j x
  | _, _ => data

/-- A `for cond { body }` loop on fuel. -/
def whileLoop {σ : Type} (cond : σ → Bool) (body : σ → Option σ) : Nat → σ → Option σ
  | 0, s => if cond s then none else some s
  | fuel + 1, s => if cond s then (body s).bind (whileLoop cond body fuel) else some s

/-- `insertionSort_func(data, a, b)`. -/
def insertionSort_func {α : Type} (lt : α → α → Bool) (data : List α) (a b : Nat) :
    Option (List α) :=
  -- for i := a + 1; i < b; i++
  (whileLoop (fun (s : Nat × List α) => decide (s.1 < b))
    (fun s =>
      -- for j := i; j > a && data.Less(j, j-1); j-- { data.Swap(j, j-1) }
      (whileLoop (fun (t : Nat × List α) => decide (t.1 > a) && lessAt lt t.2 t.1 (t.1 - 1))
        (fun t => some (t.1 - 1, swapAt t.2 t.1 (t.1 - 1)))
        (data.length + 1) (s.1, s.2)).map (fun t => (s.1 + 1, t.2)))
    (data.length + 1) (a + 1, data)).map Prod.snd

/-- `siftDown_func(data, lo, hi, first)`. -/
def siftDown_func {α : Type} (lt : α → α → Bool) (data : List α) (lo hi first : Nat) :
    Option (List α) :=
  -- the state is (root, data, still running)
  (whileLoop (fun (s : Nat × List α × Bool) => s.2.2)
    (fun s =>
      let root := s.1
      let data := s.2.1
      let child := 2 * root + 1
      if child ≥ hi then some (root, data, false)
      else
        let child :=
          if child + 1 < hi && lessAt lt data (first + child) (first + child + 1) then child + 1
          else child
        if !lessAt lt data (first + root) (first + child) then some (root, data, false)
        else some (child, swapAt data (first + root) (first + child), true))
    (data.length + 1) (lo, data, true)).map (fun s => s.2.1)

/-- `heapSort_func(data, a, b)`. -/
def heapSort_func {α : Type} (lt : α → α → Bool) (data : List α) (a b : Nat) :
    Option (List α) := do
  let first := a
  let lo := 0
  let hi := b - a
  -- for i := (hi - 1) / 2; i >= 0; i-- { siftDown_func(data, i, hi, first) }
  -- (the state holds i + 1, so that the loop can stop after i = 0)
  let s ← whileLoop (fun (s : Nat × List α) => decide (s.1 > 0))
    (fun s => (siftDown_func lt s.2 (s.1 - 1) hi first).map (fun d => (s.1 - 1, d)))
    (data.length + 1) ((hi - 1) / 2 + 1, data)
  -- for i := hi - 1; i >= 0; i-- { data.Swap(first, first+i); siftDown_func(data, lo, i, first) }
  -- (the state holds i + 1)
  let s ← whileLoop (fun (s : Nat × List α) => decide (s.1 > 0))
    (fun s =>
      let i := s.1 - 1
      (siftDown_func lt (swapAt s.2 first (first + i)) lo i first).map (fun d => (i, d)))
    (data.length + 1) (hi, s.2)
  pure s.2

/-! ### Go 1.8 to 1.18: `quickSort_func` -/

/-- `medianOfThree_func(data, m1, m0, m2)`. -/
def medianOfThree_func {α : Type} (lt : α → α → Bool) (data : List α) (m1 m0 m2 : Nat) :
    List α :=
  let data := if lessAt lt data m1 m0 then swapAt data m1 m0 else data
  if lessAt lt data m2 m1 then
    let data := swapAt data m2 m1
    if lessAt lt data m1 m0 then swapAt data m1 m0 else data
  else data

/-- `doPivot_func(data, lo, hi)`: the slice afterwards, `midlo` and `midhi`. -/
def doPivot_func {α : Type} (lt : α → α → Bool) (data : List α) (lo hi : Nat) :
    Option (List α × Nat × Nat) := do
  let n := data.length + 1
  let m := (lo + hi) / 2
  let data :=
    if hi - lo > 40 then
      let s := (hi - lo) / 8
      let data := medianOfThree_func lt data lo (lo + s) (lo + 2 * s)
      let data := medianOfThree_func lt data m (m - s) (m + s)
      medianOfThree_func lt data (hi - 1) (hi - 1 - s) (hi - 1 - 2 * s)
    else data
  let data := medianOfThree_func lt data lo m (hi - 1)
  let pivot := lo
  let c := hi - 1
  -- for ; a < c && data.Less(a, pivot); a++ {}
  let a ← whileLoop (fun (a : Nat) => decide (a < c) && lessAt lt data a pivot)
    (fun a => some (a + 1)) n (lo + 1)
  -- the outer `for` loop; the state is (b, c, data, still running)
  let s ← whileLoop (fun (s : Nat × Nat × List α × Bool) => s.2.2.2)
    (fun s => do
      let c := s.2.1
      let data := s.2.2.1
      -- for ; b < c && !data.Less(pivot, b); b++ {}
      let b ← whileLoop (fun (b : Nat) => decide (b < c) && !lessAt lt data pivot b)
        (fun b => some (b + 1)) n s.1
      -- for ; b < c && data.Less(pivot, c-1); c-- {}
      let c ← whileLoop (fun (c : Nat) => decide (b < c) && lessAt lt data pivot (c - 1))
        (fun c => some (c - 1)) n c
      if b ≥ c then pure (b, c, data, false)
      else pure (b + 1, c - 1, swapAt data b (c - 1), true))
    n (a, c, data, true)
  let b := s.1
  let c := s.2.1
  let data := s.2.2.1
  let protect := decide (hi - c < 5)
  -- if !protect && hi-c < (hi-lo)/4
  let t : List α × Nat × Nat × Bool :=
    if !protect && decide (hi - c < (hi - lo) / 4) then
      let dups := 0
      let r1 : List α × Nat × Nat :=
        if !lessAt lt data pivot (hi - 1) then (swapAt data c (hi - 1), c + 1, dups + 1)
        else (data, c, dups)
      let data := r1.1
      let c := r1.2.1
      let dups := r1.2.2
      let r2 : Nat × Nat := if !lessAt lt data (b - 1) pivot then (b - 1, dups + 1) else (b, dups)
      let b := r2.1
      let dups := r2.2
      let r3 : List α × Nat × Nat :=
        if !lessAt lt data m pivot then (swapAt data m (b - 1), b - 1, dups + 1)
        else (data, b, dups)
      (r3.1, r3.2.1, c, decide (r3.2.2 > 1))
    else (data, b, c, protect)
  let data := t.1
  let b := t.2.1
  let c := t.2.2.1
  let protect := t.2.2.2
  let u ←
    if protect then
      -- the state is (a, b, data, still running)
      whileLoop (fun (s : Nat × Nat × List α × Bool) => s.2.2.2)
        (fun s => do
          let data := s.2.2.1
          -- for ; a < b && !data.Less(b-1, pivot); b-- {}
          let b ← whileLoop (fun (b : Nat) => decide (s.1 < b) && !lessAt lt data (b - 1) pivot)
            (fun b => some (b - 1)) n s.2.1
          -- for ; a < b && data.Less(a, pivot); a++ {}
          let a ← whileLoop (fun (a : Nat) => decide (a < b) && lessAt lt data a pivot)
            (fun a => some (a + 1)) n s.1
          if a ≥ b then pure (a, b, data, false)
          else pure (a + 1, b - 1, swapAt data a (b - 1), true))
        n (a, b, data, true)
    else pure (a, b, data, false)
  let b := u.2.1
  let data := u.2.2.1
  -- data.Swap(pivot, b-1); return b - 1, c
  pure (swapAt data pivot (b - 1), b - 1, c)

/-- `maxDepth(n)`: twice the number of bits of `n`. -/
def maxDepth (n : Nat) : Nat :=
  2 * ((whileLoop (fun (s : Nat × Nat) => decide (s.1 > 0))
    (fun s => some (s.1 / 2, s.2 + 1)) n (n, 0)).map Prod.snd).getD 0

/-- `quickSort_func(data, a, b, maxDepth)`; one unit of fuel per iteration of
its `for b-a > 12` loop. -/
def quickSort_func {α : Type} (lt : α → α → Bool) :
    Nat → List α → Nat → Nat → Nat → Option (List α)
  | 0, _, _, _, _ => none
  | fuel + 1, data, a, b, maxDepth =>
    if b - a > 12 then
      if maxDepth = 0 then heapSort_func lt data a b
      else do
        let maxDepth := maxDepth - 1
        let r ← doPivot_func lt data a b
        let data := r.1
        let mlo := r.2.1
        let mhi := r.2.2
        if mlo - a < b - mhi then do
          let data ← quickSort_func lt fuel data a mlo maxDepth
          quickSort_func lt fuel data mhi b maxDepth
        else do
          let data ← quickSort_func lt fuel data mhi b maxDepth
          quickSort_func lt fuel data a mlo maxDepth
    else if b - a > 1 then do
      -- ShellSort pass with gap 6: for i := a + 6; i < b; i++
      let s ← whileLoop (fun (s : Nat × List α) => decide (s.1 < b))
        (fun s =>
          some (s.1 + 1, if lessAt lt s.2 s.1 (s.1 - 6) then swapAt s.2 s.1 (s.1 - 6) else s.2))
        (data.length + 1) (a + 6, data)
      insertionSort_func lt s.2 a b
    else some data

/-- `sort.Slice(x, less)` of Go 1.8 to 1.18:
`quickSort_func(lessSwap{less, swap}, 0, length, maxDepth(length))`. -/
def sliceQuickSort {α : Type} (lt : α → α → Bool) (x : List α) : Option (List α) :=
  quickSort_func lt (x.length + 1) x 0 x.length (maxDepth x.length)

/-! ### Go 1.19 and later: `pdqsort_func` -/

/-- The hint `choosePivot_func` gives to `pdqsort_func`. -/
inductive sortedHint where
  | unknownHint
  | increasingHint
  | decreasingHint
deriving DecidableEq, Repr

/-- `order2_func(data, a, b, swaps)`: the two indices in order, and `swaps`. -/
def order2_func {α : Type} (lt : α → α → Bool) (data : List α) (a b swaps : Nat) :
    Nat × Nat × Nat :=
  if lessAt lt data b a then (b, a, swaps + 1) else (a, b, swaps)

/-- `median_func(data, a, b, c, swaps)`: the index of the median, and `swaps`. -/
def median_func {α : Type} (lt : α → α → Bool) (data : List α) (a b c swaps : Nat) :
    Nat × Nat :=
  let r := order2_func lt data a b swaps
  let a := r.1
  let b := r.2.1
  let r := order2_func lt data b c r.2.2
  let b := r.1
  let r := order2_func lt data a b r.2.2
  (r.2.1, r.2.2)

/-- `medianAdjacent_func(data, a, swaps)`. -/
def medianAdjacent_func {α : Type} (lt : α → α → Bool) (data : List α) (a swaps : Nat) :
    Nat × Nat :=
  median_func lt data (a - 1) a (a + 1) swaps

/-- `choosePivot_func(data, a, b)`. -/
def choosePivot_func {α : Type} (lt : α → α → Bool) (data : List α) (a b : Nat) :
    Nat × sortedHint :=
  let shortestNinther := 50
  let maxSwaps := 4 * 3
  let l := b - a
  let i := a + l / 4 * 1
  let j := a + l / 4 * 2
  let k := a + l / 4 * 3
  let r : Nat × Nat :=
    if l ≥ 8 then
      if l ≥ shortestNinther then
        let ri := medianAdjacent_func lt data i 0
        let rj := medianAdjacent_func lt data j ri.2
        let rk := medianAdjacent_func lt data k rj.2
        median_func lt data ri.1 rj.1 rk.1 rk.2
      else median_func lt data i j k 0
    else (j, 0)
  if r.2 = 0 then (r.1, sortedHint.increasingHint)
  else if r.2 = maxSwaps then (r.1, sortedHint.decreasingHint)
  else (r.1, sortedHint.unknownHint)

/-- `reverseRange_func(data, a, b)`. -/
def reverseRange_func {α : Type} (data : List α) (a b : Nat) : Option (List α) :=
  -- the state is (i, j + 1, data)
  (whileLoop (fun (s : Nat × Nat × List α) => decide (s.1 + 1 < s.2.1))
    (fun s => some (s.1 + 1, s.2.1 - 1, swapAt s.2.2 s.1 (s.2.1 - 1)))
    (data.length + 1) (a, b, data)).map (fun s => s.2.2)

/-- `partialInsertionSort_func(data, a, b)`, with `steps` iterations of its
outer loop left and `i` as it stands: the slice afterwards and the result. -/
def partialInsertionSort_steps {α : Type} (lt : α → α → Bool) (a b : Nat) :
    Nat → Nat → List α → Option (List α × Bool)
  | 0, _, data => some (data, false)
  | steps + 1, i, data => do
    let shortestShifting := 50
    -- for i < b && !data.Less(i, i-1) { i++ }
    let i ← whileLoop (fun (i : Nat) => decide (i < b) && !lessAt lt data i (i - 1))
      (fun i => some (i + 1)) (data.length + 1) i
    if i = b then pure (data, true)
    else if b - a < shortestShifting then pure (data, false)
    else do
      let data := swapAt data i (i - 1)
      -- shift the smaller one to the left
      let data ←
        if i - a ≥ 2 then
          (whileLoop (fun (s : Nat × List α) => decide (s.1 ≥ 1) && lessAt lt s.2 s.1 (s.1 - 1))
            (fun s => some (s.1 - 1, swapAt s.2 s.1 (s.1 - 1)))
            (data.length + 1) (i - 1, data)).map Prod.snd
        else some data
      -- shift the greater one to the right
      let data ←
        if b - i ≥ 2 then
          (whileLoop (fun (s : Nat × List α) => decide (s.1 < b) && lessAt lt s.2 s.1 (s.1 - 1))
            (fun s => some (s.1 + 1, swapAt s.2 s.1 (s.1 - 1)))
            (data.length + 1) (i + 1, data)).map Prod.snd
        else some data
      partialInsertionSort_steps lt a b steps i data

/-- `partialInsertionSort_func(data, a, b)`; `maxSteps` is 5. -/
def partialInsertionSort_func {α : Type} (lt : α → α → Bool) (data : List α) (a b : Nat) :
    Option (List α × Bool) :=
  partialInsertionSort_steps lt a b 5 (a + 1) data

/-- `partitionEqual_func(data, a, b, pivot)`: the slice afterwards and `newpivot`. -/
def partitionEqual_func {α : Type} (lt : α → α → Bool) (data : List α) (a b pivot : Nat) :
    Option (List α × Nat) := do
  let n := data.length + 1
  let data := swapAt data a pivot
  -- the state is (i, j + 1, data, still running)
  let s ← whileLoop (fun (s : Nat × Nat × List α × Bool) => s.2.2.2)
    (fun s => do
      let data := s.2.2.1
      -- for i <= j && !data.Less(a, i) { i++ }
      let i ← whileLoop (fun (i : Nat) => decide (i < s.2.1) && !lessAt lt data a i)
        (fun i => some (i + 1)) n s.1
      -- for i <= j && data.Less(a, j) { j-- }
      let j1 ← whileLoop (fun (j1 : Nat) => decide (i < j1) && lessAt lt data a (j1 - 1))
        (fun j1 => some (j1 - 1)) n s.2.1
      if i ≥ j1 then pure (i, j1, data, false)
      else pure (i + 1, j1 - 1, swapAt data i (j1 - 1), true))
    n (a + 1, b, data, true)
  pure (s.2.2.1, s.1)

/-- `partition_func(data, a, b, pivot)`: the slice afterwards, `newpivot` and
`alreadyPartitioned`. Indices `j` of the Go code are kept as `j + 1`. -/
def partition_func {α : Type} (lt : α → α → Bool) (data : List α) (a b pivot : Nat) :
    Option (List α × Nat × Bool) := do
  let n := data.length + 1
  let data := swapAt data a pivot
  -- for i <= j && data.Less(i, a) { i++ }
  let i ← whileLoop (fun (i : Nat) => decide (i < b) && lessAt lt data i a)
    (fun i => some (i + 1)) n (a + 1)
  -- for i <= j && !data.Less(j, a) { j-- }
  let j1 ← whileLoop (fun (j1 : Nat) => decide (i < j1) && !lessAt lt data (j1 - 1) a)
    (fun j1 => some (j1 - 1)) n b
  if i ≥ j1 then
    -- data.Swap(j, a); return j, true
    pure (swapAt data (j1 - 1) a, j1 - 1, true)
  else do
    let data := swapAt data i (j1 - 1)
    -- the state is (i, j + 1, data, still running)
    let s ← whileLoop (fun (s : Nat × Nat × List α × Bool) => s.2.2.2)
      (fun s => do
        let data := s.2.2.1
        let i ← whileLoop (fun (i : Nat) => decide (i < s.2.1) && lessAt lt data i a)
          (fun i => some (i + 1)) n s.1
        let j1 ← whileLoop (fun (j1 : Nat) => decide (i < j1) && !lessAt lt data (j1 - 1) a)
          (fun j1 => some (j1 - 1)) n s.2.1
        if i ≥ j1 then pure (i, j1, data, false)
        else pure (i + 1, j1 - 1, swapAt data i (j1 - 1), true))
      n (i + 1, j1 - 1, data, true)
    -- data.Swap(j, a); return j, false
    pure (swapAt s.2.2.1 (s.2.1 - 1) a, s.2.1 - 1, false)

/-- `bits.Len(uint(n))`: the number of bits needed to write `n`. -/
def bitsLen (n : Nat) : Nat :=
  ((whileLoop (fun (s : Nat × Nat) => decide (s.1 > 0))
    (fun s => some (s.1 / 2, s.2 + 1)) n (n, 0)).map Prod.snd).getD 0

/-- `breakPatterns_func(data, a, b)`: three elements around the middle of the
range, at `idx`, `idx + 1` and `idx + 2`, are swapped with elements picked by an
xorshift generator seeded with the length; `next` is one step of that
generator. -/
def breakPatterns_func {α : Type} (next : Nat → Nat) (data : List α) (a b : Nat) : List α :=
  let length := b - a
  if length ≥ 8 then
    let modulus := 2 ^ bitsLen length
    let idx := a + (length / 4) * 2 - 1
    let pick := fun (r : Nat) =>
      let other := r &&& (modulus - 1)
      if other ≥ length then other - length else other
    let r0 := next length
    let data := swapAt data (idx + 0) (a + pick r0)
    let r1 := next r0
    let data := swapAt data (idx + 1) (a + pick r1)
    let r2 := next r1
    swapAt data (idx + 2) (a + pick r2)
  else data

/-- `pdqsort_func(data, a, b, limit)`, entered with the loop variables
`wasBalanced` and `wasPartitioned` as given; one unit of fuel per iteration of
its loop. -/
def pdqsort_func {α : Type} (lt : α → α → Bool) (next : Nat → Nat) :
    Nat → List α → Nat → Nat → Nat → Bool → Bool → Option (List α)
  | 0, _, _, _, _, _, _ => none
  | fuel + 1, data, a, b, limit, wasBalanced, wasPartitioned =>
    let maxInsertion := 12
    let length := b - a
    if length ≤ maxInsertion then insertionSort_func lt data a b
    else if limit = 0 then heapSort_func lt data a b
    else do
      let data := if !wasBalanced then breakPatterns_func next data a b else data
      let limit := if !wasBalanced then limit - 1 else limit
      let r := choosePivot_func lt data a b
      let pivot := r.1
      let hint := r.2
      let data ←
        if hint = sortedHint.decreasingHint then reverseRange_func data a b else some data
      let pivot := if hint = sortedHint.decreasingHint then (b - 1) - (pivot - a) else pivot
      let hint :=
        if hint = sortedHint.decreasingHint then sortedHint.increasingHint else hint
      let p ←
        if wasBalanced && wasPartitioned && decide (hint = sortedHint.increasingHint) then
          partialInsertionSort_func lt data a b
        else some (data, false)
      if p.2 then pure p.1
      else
        let data := p.1
        if decide (a > 0) && !lessAt lt data (a - 1) pivot then do
          let q ← partitionEqual_func lt data a b pivot
          pdqsort_func lt next fuel q.1 q.2 b limit wasBalanced wasPartitioned
        else do
          let q ← partition_func lt data a b pivot
          let data := q.1
          let mid := q.2.1
          let wasPartitioned := q.2.2
          let leftLen := mid - a
          let rightLen := b - mid
          let balanceThreshold := length / 8
          if leftLen < rightLen then do
            let data ← pdqsort_func lt next fuel data a mid limit true true
            pdqsort_func lt next fuel data (mid + 1) b limit
              (decide (leftLen ≥ balanceThreshold)) wasPartitioned
          else do
            let data ← pdqsort_func lt next fuel data (mid + 1) b limit true true
            pdqsort_func lt next fuel data a mid limit
              (decide (rightLen ≥ balanceThreshold)) wasPartitioned

/-- `sort.Slice(x, less)` of Go 1.19 and later:
`pdqsort_func(lessSwap{less, swap}, 0, length, bits.Len(uint(length)))`. -/
def slicePdqsort {α : Type} (lt : α → α → Bool) (next : Nat → Nat) (x : List α) :
    Option (List α) :=
  pdqsort_func lt next (x.length + 1) x 0 x.length (bitsLen x.length) true true

/-- An environment whose `sort.Slice` is the one of Go 1.8 to 1.18. -/
def quickSortEnv : Env :=
  { sortSlice := fun lt xs => (sliceQuickSort lt xs).getD xs
    jsonMarshal := fun _ => some "{}"
    logGroupName := "group"
    streamName := "stream" }

/-- An environment whose `sort.Slice` is the one of Go 1.19 and later, for a
given step function of the xorshift generator. -/
def pdqsortEnv (next : Nat → Nat) : Env :=
  { sortSlice := fun lt xs => (slicePdqsort lt next xs).getD xs
    jsonMarshal := fun _ => some "{}"
    logGroupName := "group"
    streamName := "stream" }

/-- An environment whose `sort.Slice` is the tie-reversing insertion sort. -/
def reversingEnv : Env :=
  { sortSlice := insertionSortRev
    jsonMarshal := fun _ => some "{}"
    logGroupName := "group"
    streamName := "stream" }

/-- Thirteen records in arrival order `"r0"`, ..., `"r12"`: the first twelve
stamped 10:00:01, the last one stamped 10:00:00. -/
def batch13 : List LogParts :=
  [mkRecord 36001000000000 "r0", mkRecord 36001000000000 "r1", mkRecord 36001000000000 "r2",
   mkRecord 36001000000000 "r3", mkRecord 36001000000000 "r4", mkRecord 36001000000000 "r5",
   mkRecord 36001000000000 "r6", mkRecord 36001000000000 "r7", mkRecord 36001000000000 "r8",
   mkRecord 36001000000000 "r9", mkRecord 36001000000000 "r10", mkRecord 36001000000000 "r11",
   mkRecord 36000000000000 "r12"]

/-- Two records with the same timestamp, in arrival order `"x"`, `"y"`. -/
def batchXY : List LogParts :=
  [mkRecord 36000000000000 "x", mkRecord 36000000000000 "y"]

/-- The events of the request `sendToCloudWatch` issues, by their messages. -/
def requestMessages (r : SendResult) : Option (List String) :=
  r.request.map (fun req => req.LogEvents.map (fun e => e.Message))

/-- Arrival order is kept among records with equal timestamps: for every
instant, the records of `out` stamped with it are those of `B`, in the order
they have in `B`. -/
def ArrivalOrderKept (B out : List LogParts) : Prop :=
  ∀ t : Time, out.filter (fun r => timestampOf r == some t) =
    B.filter (fun r => timestampOf r == some t)

/-- The ordering step of `sendToCloudWatch` is stable under `env`. -/
def StableDispatch (env : Env) : Prop :=
  ∀ B : List LogParts, (∀ r ∈ B, hasTimestamp r = true) →
    ArrivalOrderKept B (sortedBuffer env B)

/-- The order in which `sort.Slice` of Go 1.19 and later leaves `batch13`. -/
def batch13Pdqsort : List LogParts :=
  [mkRecord 36000000000000 "r12", mkRecord 36001000000000 "r6", mkRecord 36001000000000 "r2",
   mkRecord 36001000000000 "r3", mkRecord 36001000000000 "r4", mkRecord 36001000000000 "r5",
   mkRecord 36001000000000 "r0", mkRecord 36001000000000 "r7", mkRecord 36001000000000 "r8",
   mkRecord 36001000000000 "r9", mkRecord 36001000000000 "r10", mkRecord 36001000000000 "r11",
   mkRecord 36001000000000 "r1"]

/-- The order in which `sort.Slice` of Go 1.8 to 1.18 leaves `batch13`. -/
def batch13QuickSort : List LogParts :=
  [mkRecord 36000000000000 "r12", mkRecord 36001000000000 "r6", mkRecord 36001000000000 "r2",
   mkRecord 36001000000000 "r3", mkRecord 36001000000000 "r4", mkRecord 36001000000000 "r5",
   mkRecord 36001000000000 "r1", mkRecord 36001000000000 "r7", mkRecord 36001000000000 "r8",
   mkRecord 36001000000000 "r9", mkRecord 36001000000000 "r10", mkRecord 36001000000000 "r11",
   mkRecord 36001000000000 "r0"]

/-- The records of `batchCAB` in the order of their timestamps. -/
def batchABC : List LogParts :=
  [mkRecord 36000000000000 "a", mkRecord 36001000000000 "b", mkRecord 36002000000000 "c"]

/-! ## Notions used in the statements -/

/-- The nanosecond count of the instant fits an `int64`, so that `UnixNano`
does not wrap (instants between the years 1678 and 2262). -/
def InInt64Range (t : Time) : Prop :=
  -(2 : Int) ^ 63 ≤ t.unixNanos ∧ t.unixNanos < (2 : Int) ^ 63

/-- The last instant whose nanosecond count fits an `int64`
(2262-04-11 23:47:16.854775807 UTC). -/
def lastInt64Instant : Time := { unixNanos := 9223372036854775807 }

/-- The instant one nanosecond after `lastInt64Instant`. -/
def firstWrappedInstant : Time := { unixNanos := 9223372036854775808 }

/-- Two records in arrival order `"last"`, `"wrapped"`, stamped
`lastInt64Instant` and `firstWrappedInstant`. -/
def batchOverflow : List LogParts :=
  [mkRecord 9223372036854775807 "last", mkRecord 9223372036854775808 "wrapped"]

/-- Three records stamped before the epoch: 1.5 ms, 2.5 ms and 0.5 ms before it. -/
def batchBeforeEpoch : List LogParts :=
  [mkRecord (-1500000) "p", mkRecord (-2500000) "q", mkRecord (-500000) "r"]

/-- A record with a timestamp and no `"content"` (as the RFC 5424 parser of
the syslog library yields, which stores the text under `"message"`). -/
def recordNoContent : LogParts :=
  [("timestamp", Value.time { unixNanos := 36000000000000 }), ("message", Value.str "m")]

/-- A record with a content whose `"timestamp"` is a string, not a `time.Time`. -/
def recordNoTimestamp : LogParts :=
  [("timestamp", Value.str "Jan  1 10:00:00"), ("content", Value.str "m")]

/-- The token a reply of the remote service carries: `*resp.NextSequenceToken`
when neither pointer is nil. -/
def returnedToken (c : CallResult) : Option String :=
  match c.resp with
  | some out => out.NextSequenceToken
  | none => none

/-- What lines 119-122 put into the request for a value of `sequenceToken`:
nothing for the empty string, the token otherwise. -/
def carried (sequenceToken : String) : Option String :=
  if sequenceToken ≠ "" then some sequenceToken else none

/-- The records dequeued from the channel in a sequence of loop events. -/
def dequeued : List LoopEvent → List LogParts
  | [] => []
  | LoopEvent.tick :: es => dequeued es
  | LoopEvent.logParts r :: es => r :: dequeued es

/-- A failed reply as the AWS SDK returns it: `resp` points to an empty
`PutLogEventsOutput` (allocated before the request is sent and never filled
in), `err` is set. -/
def failedReply : PutLogEventsInput → CallResult :=
  fun _ => { resp := some { NextSequenceToken := none }, err := some "ServiceUnavailableException" }

/-- A failed reply with a nil `resp`. -/
def failedReplyNil : PutLogEventsInput → CallResult :=
  fun _ => { resp := none, err := some "ServiceUnavailableException" }

/-- A remote service that accepts every call and returns `"tokenA"` to the
first, `"tokenB"` to the second and `"tokenC"` to all later ones. -/
def acceptingRemote : Nat → PutLogEventsInput → CallResult
  | 0 => okReply "tokenA"
  | 1 => okReply "tokenB"
  | _ => okReply "tokenC"

/-- A remote service whose first call fails and whose later calls succeed. -/
def failingFirstRemote : Nat → PutLogEventsInput → CallResult
  | 0 => failedReply
  | _ => okReply "tokenB"

/-- Two flush windows with one record each. -/
def twoWindows : List LoopEvent :=
  [LoopEvent.logParts (mkRecord 36000000000000 "first"), LoopEvent.tick,
   LoopEvent.logParts (mkRecord 36001000000000 "second"), LoopEvent.tick]

/-! ## Helper lemmas -/

theorem hasTimestamp_iff (r : LogParts) :
    hasTimestamp r = true ↔ ∃ t, r.lookup "timestamp" = some (Value.time t) := by
  unfold hasTimestamp
  split
  · next t h => exact ⟨fun _ => ⟨t, h⟩, fun _ => rfl⟩
  · next h =>
    constructor
    · intro h'; cases h'
    · rintro ⟨t, ht⟩; exact absurd ht (h t)

theorem hasContent_iff (r : LogParts) :
    hasContent r = true ↔ ∃ s, r.lookup "content" = some (Value.str s) := by
  unfold hasContent
  split
  · next s h => exact ⟨fun _ => ⟨s, h⟩, fun _ => rfl⟩
  · next h =>
    constructor
    · intro h'; cases h'
    · rintro ⟨s, hs⟩; exact absurd hs (h s)

theorem timestampOf_of_lookup {r : LogParts} {t : Time}
    (h : r.lookup "timestamp" = some (Value.time t)) : timestampOf r = some t := by
  unfold timestampOf; rw [h]

theorem contentOf_of_lookup {r : LogParts} {s : String}
    (h : r.lookup "content" = some (Value.str s)) : contentOf r = some s := by
  unfold contentOf; rw [h]

theorem less_of_lookup {a b : LogParts} {ta tb : Time}
    (ha : a.lookup "timestamp" = some (Value.time ta))
    (hb : b.lookup "timestamp" = some (Value.time tb)) :
    less a b = ta.Before tb := by
  unfold less; rw [ha, hb]

/-- On a buffer whose records all carry a timestamp, the closure of line 102
is a strict weak ordering. -/
theorem less_strictWeakOn (buffer : List LogParts)
    (h : ∀ r ∈ buffer, hasTimestamp r = true) : StrictWeakOn less buffer := by
  refine ⟨?_, ?_, ?_⟩
  · intro a ha
    obtain ⟨ta, hta⟩ := (hasTimestamp_iff a).1 (h a ha)
    rw [less_of_lookup hta hta]
    simp [Time.Before]
  · intro a ha b hb c hc
    obtain ⟨ta, hta⟩ := (hasTimestamp_iff a).1 (h a ha)
    obtain ⟨tb, htb⟩ := (hasTimestamp_iff b).1 (h b hb)
    obtain ⟨tc, htc⟩ := (hasTimestamp_iff c).1 (h c hc)
    rw [less_of_lookup hta htb, less_of_lookup htb htc, less_of_lookup hta htc]
    simp only [Time.Before, decide_eq_true_eq]
    intro h1 h2; omega
  · intro a ha b hb c hc
    obtain ⟨ta, hta⟩ := (hasTimestamp_iff a).1 (h a ha)
    obtain ⟨tb, htb⟩ := (hasTimestamp_iff b).1 (h b hb)
    obtain ⟨tc, htc⟩ := (hasTimestamp_iff c).1 (h c hc)
    rw [less_of_lookup hta htb, less_of_lookup htb htc, less_of_lookup hta htc]
    simp only [Time.Before, decide_eq_false_iff_not]
    intro h1 h2; omega

/-- Under a strict weak ordering of its elements, a list sorted in the sense
of `sort.SliceIsSorted` has no later element `less` than an earlier one. -/
theorem pairwise_of_sliceIsSorted {α : Type} (lt : α → α → Bool) :
    ∀ (xs : List α), StrictWeakOn lt xs → SliceIsSorted lt xs →
      xs.Pairwise (fun a b => lt b a = false)
  | [], _, _ => List.Pairwise.nil
  | [a], _, _ => List.pairwise_singleton _ _
  | a :: b :: l, hsw, hch => by
    have hch' : lt b a = false ∧ SliceIsSorted lt (b :: l) := by
      simpa [SliceIsSorted, List.chain'_cons] using hch
    have hsw' : StrictWeakOn lt (b :: l) := by
      obtain ⟨h1, h2, h3⟩ := hsw
      refine ⟨fun x hx => h1 x (List.mem_cons_of_mem _ hx), ?_, ?_⟩
      · intro x hx y hy z hz
        exact h2 x (List.mem_cons_of_mem _ hx) y (List.mem_cons_of_mem _ hy) z
          (List.mem_cons_of_mem _ hz)
      · intro x hx y hy z hz
        exact h3 x (List.mem_cons_of_mem _ hx) y (List.mem_cons_of_mem _ hy) z
          (List.mem_cons_of_mem _ hz)
    have ih := pairwise_of_sliceIsSorted lt (b :: l) hsw' hch'.2
    refine List.Pairwise.cons ?_ ih
    intro c hc
    rcases List.mem_cons.1 hc with rfl | hcl
    · exact hch'.1
    · have hbc : lt c b = false := (List.pairwise_cons.1 ih).1 c hcl
      exact hsw.2.2 c (List.mem_cons_of_mem _ hc) b (by simp) a (by simp) hbc hch'.1

theorem insertBeforeEqual_perm {α : Type} (lt : α → α → Bool) (x : α) :
    ∀ l : List α, (insertBeforeEqual lt x l).Perm (x :: l)
  | [] => List.Perm.refl _
  | y :: ys => by
    unfold insertBeforeEqual
    split
    · exact ((insertBeforeEqual_perm lt x ys).cons y).trans (List.Perm.swap x y ys)
    · exact List.Perm.refl _

theorem insertAfterEqual_perm {α : Type} (lt : α → α → Bool) (x : α) :
    ∀ l : List α, (insertAfterEqual lt x l).Perm (x :: l)
  | [] => List.Perm.refl _
  | y :: ys => by
    unfold insertAfterEqual
    split
    · exact List.Perm.refl _
    · exact ((insertAfterEqual_perm lt x ys).cons y).trans (List.Perm.swap x y ys)

theorem insertionSortStable_perm {α : Type} (lt : α → α → Bool) :
    ∀ l : List α, (insertionSortStable lt l).Perm l
  | [] => List.Perm.refl _
  | x :: xs =>
    (insertBeforeEqual_perm lt x _).trans ((insertionSortStable_perm lt xs).cons x)

theorem insertionSortRev_perm {α : Type} (lt : α → α → Bool) :
    ∀ l : List α, (insertionSortRev lt l).Perm l
  | [] => List.Perm.refl _
  | x :: xs =>
    (insertAfterEqual_perm lt x _).trans ((insertionSortRev_perm lt xs).cons x)

/-- A strict weak ordering is asymmetric. -/
theorem StrictWeakOn.asymm {α : Type} {lt : α → α → Bool} {u : List α}
    (hsw : StrictWeakOn lt u) {a b : α} (ha : a ∈ u) (hb : b ∈ u) (hab : lt a b = true) :
    lt b a = false := by
  cases hba : lt b a
  · rfl
  · have := hsw.2.1 a ha b hb a ha hab hba
    rw [hsw.1 a ha] at this
    cases this

theorem insertBeforeEqual_pairwise {α : Type} (lt : α → α → Bool) (u : List α)
    (hsw : StrictWeakOn lt u) (x : α) (hx : x ∈ u) :
    ∀ l : List α, (∀ y ∈ l, y ∈ u) → l.Pairwise (fun a b => lt b a = false) →
      (insertBeforeEqual lt x l).Pairwise (fun a b => lt b a = false)
  | [], _, _ => List.pairwise_singleton _ _
  | y :: ys, hl, hp => by
    have hy : y ∈ u := hl y (by simp)
    have hys : ∀ z ∈ ys, z ∈ u := fun z hz => hl z (List.mem_cons_of_mem _ hz)
    obtain ⟨hyall, hpys⟩ := List.pairwise_cons.1 hp
    unfold insertBeforeEqual
    split
    · next hlt =>
      refine List.Pairwise.cons ?_ (insertBeforeEqual_pairwise lt u hsw x hx ys hys hpys)
      intro b hb
      rcases List.mem_cons.1 ((insertBeforeEqual_perm lt x ys).subset hb) with rfl | hb'
      · exact hsw.asymm hy hx hlt
      · exact hyall b hb'
    · next hlt =>
      have hyx : lt y x = false := by simpa using hlt
      refine List.Pairwise.cons ?_ hp
      intro b hb
      rcases List.mem_cons.1 hb with rfl | hb'
      · exact hyx
      · exact hsw.2.2 b (hys b hb') y hy x hx (hyall b hb') hyx

theorem insertAfterEqual_pairwise {α : Type} (lt : α → α → Bool) (u : List α)
    (hsw : StrictWeakOn lt u) (x : α) (hx : x ∈ u) :
    ∀ l : List α, (∀ y ∈ l, y ∈ u) → l.Pairwise (fun a b => lt b a = false) →
      (insertAfterEqual lt x l).Pairwise (fun a b => lt b a = false)
  | [], _, _ => List.pairwise_singleton _ _
  | y :: ys, hl, hp => by
    have hy : y ∈ u := hl y (by simp)
    have hys : ∀ z ∈ ys, z ∈ u := fun z hz => hl z (List.mem_cons_of_mem _ hz)
    obtain ⟨hyall, hpys⟩ := List.pairwise_cons.1 hp
    unfold insertAfterEqual
    split
    · next hlt =>
      have hyx : lt y x = false := hsw.asymm hx hy hlt
      refine List.Pairwise.cons ?_ hp
      intro b hb
      rcases List.mem_cons.1 hb with rfl | hb'
      · exact hyx
      · exact hsw.2.2 b (hys b hb') y hy x hx (hyall b hb') hyx
    · next hlt =>
      have hxy : lt x y = false := by simpa using hlt
      refine List.Pairwise.cons ?_ (insertAfterEqual_pairwise lt u hsw x hx ys hys hpys)
      intro b hb
      rcases List.mem_cons.1 ((insertAfterEqual_perm lt x ys).subset hb) with rfl | hb'
      · exact hxy
      · exact hyall b hb'

theorem insertionSortStable_pairwise {α : Type} (lt : α → α → Bool) (u : List α)
    (hsw : StrictWeakOn lt u) :
    ∀ l : List α, (∀ y ∈ l, y ∈ u) →
      (insertionSortStable lt l).Pairwise (fun a b => lt b a = false)
  | [], _ => List.Pairwise.nil
  | x :: xs, hl =>
    insertBeforeEqual_pairwise lt u hsw x (hl x (by simp)) _
      (fun y hy => hl y (List.mem_cons_of_mem _ ((insertionSortStable_perm lt xs).subset hy)))
      (insertionSortStable_pairwise lt u hsw xs (fun y hy => hl y (List.mem_cons_of_mem _ hy)))

theorem insertionSortRev_pairwise {α : Type} (lt : α → α → Bool) (u : List α)
    (hsw : StrictWeakOn lt u) :
    ∀ l : List α, (∀ y ∈ l, y ∈ u) →
      (insertionSortRev lt l).Pairwise (fun a b => lt b a = false)
  | [], _ => List.Pairwise.nil
  | x :: xs, hl =>
    insertAfterEqual_pairwise lt u hsw x (hl x (by simp)) _
      (fun y hy => hl y (List.mem_cons_of_mem _ ((insertionSortRev_perm lt xs).subset hy)))
      (insertionSortRev_pairwise lt u hsw xs (fun y hy => hl y (List.mem_cons_of_mem _ hy)))

/-- The stable insertion sort meets the contract of `sort.Slice`. -/
theorem insertionSortStable_spec : SortSliceSpec insertionSortStable := by
  intro lt xs hsw
  exact ⟨insertionSortStable_perm lt xs,
    (insertionSortStable_pairwise lt xs hsw xs (fun _ h => h)).chain'⟩

/-- The tie-reversing insertion sort meets the contract of `sort.Slice`. -/
theorem insertionSortRev_spec : SortSliceSpec insertionSortRev := by
  intro lt xs hsw
  exact ⟨insertionSortRev_perm lt xs,
    (insertionSortRev_pairwise lt xs hsw xs (fun _ h => h)).chain'⟩

theorem encodeEvent_json (env : Env) {r : LogParts} {t : Time}
    (h : r.lookup "timestamp" = some (Value.time t)) :
    encodeEvent env true r =
      Except.ok { Message := (env.jsonMarshal r).getD "", Timestamp := makeMilliTimestamp t } := by
  simp [encodeEvent, h, assertTime, bind, Except.bind, pure, Except.pure]

theorem encodeEvent_plain (env : Env) {r : LogParts} {t : Time} {s : String}
    (h : r.lookup "timestamp" = some (Value.time t))
    (hc : r.lookup "content" = some (Value.str s)) :
    encodeEvent env false r =
      Except.ok { Message := s, Timestamp := makeMilliTimestamp t } := by
  simp [encodeEvent, h, hc, assertTime, assertString, bind, Except.bind, pure, Except.pure]

theorem assertTime_error {v : Option Value} (h : ∀ t, v ≠ some (Value.time t)) :
    assertTime v = Except.error Panic.typeAssertion := by
  unfold assertTime
  split
  · next t => exact absurd rfl (h t)
  · rfl

theorem assertString_error {v : Option Value} (h : ∀ s, v ≠ some (Value.str s)) :
    assertString v = Except.error Panic.typeAssertion := by
  unfold assertString
  split
  · next s => exact absurd rfl (h s)
  · rfl

theorem encodeEvent_no_content (env : Env) {r : LogParts} (h : hasContent r = false) :
    encodeEvent env false r = Except.error Panic.typeAssertion := by
  have hc : ∀ s, r.lookup "content" ≠ some (Value.str s) := by
    intro s hs
    have := (hasContent_iff r).2 ⟨s, hs⟩
    rw [h] at this; cases this
  simp [encodeEvent, assertString_error hc, bind, Except.bind]

theorem assertString_cases (v : Option Value) :
    (∃ s, assertString v = Except.ok s) ∨ assertString v = Except.error Panic.typeAssertion := by
  unfold assertString
  split
  · exact Or.inl ⟨_, rfl⟩
  · exact Or.inr rfl

theorem encodeEvent_no_timestamp (env : Env) (useJson : Bool) {r : LogParts}
    (h : hasTimestamp r = false) :
    encodeEvent env useJson r = Except.error Panic.typeAssertion := by
  have ht : ∀ t, r.lookup "timestamp" ≠ some (Value.time t) := by
    intro t hts
    have := (hasTimestamp_iff r).2 ⟨t, hts⟩
    rw [h] at this; cases this
  cases useJson
  · rcases assertString_cases (r.lookup "content") with ⟨s, hs⟩ | he
    · simp [encodeEvent, hs, assertTime_error ht, bind, Except.bind]
    · simp [encodeEvent, he, bind, Except.bind]
  · simp [encodeEvent, assertTime_error ht, bind, Except.bind, pure, Except.pure]

/-- The loop of lines 104-117 succeeds exactly with one event per record, in
the order of the buffer. -/
theorem encodeAll_ok_iff (env : Env) (useJson : Bool) :
    ∀ (l : List LogParts) (es : List InputLogEvent),
      encodeAll env useJson l = Except.ok es ↔
        List.Forall₂ (fun r e => encodeEvent env useJson r = Except.ok e) l es
  | [], es => by
    cases es <;> simp [encodeAll]
  | r :: rest, es => by
    cases hr : encodeEvent env useJson r with
    | error p =>
      simp only [encodeAll, hr, bind, Except.bind]
      constructor
      · intro h; cases h
      · intro h
        cases h with
        | cons h1 _ => rw [hr] at h1; cases h1
    | ok e =>
      cases hrest : encodeAll env useJson rest with
      | error p =>
        simp only [encodeAll, hr, hrest, bind, Except.bind]
        constructor
        · intro h; cases h
        · intro h
          cases h with
          | cons h1 h2 =>
            have := (encodeAll_ok_iff env useJson rest _).2 h2
            rw [hrest] at this; cases this
      | ok es' =>
        simp only [encodeAll, hr, hrest, bind, Except.bind, pure, Except.pure]
        constructor
        · intro h
          cases h
          exact List.Forall₂.cons hr ((encodeAll_ok_iff env useJson rest es').1 hrest)
        · intro h
          cases h with
          | cons h1 h2 =>
            rw [hr] at h1
            cases h1
            have := (encodeAll_ok_iff env useJson rest _).2 h2
            rw [hrest] at this
            cases this
            rfl

/-- The loop of lines 104-117 can only fail with a failed type assertion. -/
theorem encodeAll_error (env : Env) (useJson : Bool) :
    ∀ (l : List LogParts) (p : Panic),
      encodeAll env useJson l = Except.error p →
        p = Panic.typeAssertion ∧
          ∃ r ∈ l, hasTimestamp r = false ∨ (useJson = false ∧ hasContent r = false)
  | [], p => by simp [encodeAll]
  | r :: rest, p => by
    intro h
    cases hts : hasTimestamp r with
    | false =>
      have hr := encodeEvent_no_timestamp env useJson hts
      simp only [encodeAll, hr, bind, Except.bind] at h
      cases h
      exact ⟨rfl, r, by simp, Or.inl hts⟩
    | true =>
      obtain ⟨t, ht⟩ := (hasTimestamp_iff r).1 hts
      cases useJson with
      | true =>
        rw [encodeAll, encodeEvent_json env ht] at h
        cases hrest : encodeAll env true rest with
        | error q =>
          simp only [hrest, bind, Except.bind] at h
          cases h
          obtain ⟨hq, r', hr', hbad⟩ := encodeAll_error env true rest _ hrest
          exact ⟨hq, r', List.mem_cons_of_mem _ hr', hbad⟩
        | ok es =>
          simp [hrest, bind, Except.bind, pure, Except.pure] at h
      | false =>
        cases hc : hasContent r with
        | false =>
          have hr := encodeEvent_no_content env hc
          simp only [encodeAll, hr, bind, Except.bind] at h
          cases h
          exact ⟨rfl, r, by simp, Or.inr ⟨rfl, hc⟩⟩
        | true =>
          obtain ⟨s, hs⟩ := (hasContent_iff r).1 hc
          rw [encodeAll, encodeEvent_plain env ht hs] at h
          cases hrest : encodeAll env false rest with
          | error q =>
            simp only [hrest, bind, Except.bind] at h
            cases h
            obtain ⟨hq, r', hr', hbad⟩ := encodeAll_error env false rest _ hrest
            exact ⟨hq, r', List.mem_cons_of_mem _ hr', hbad⟩
          | ok es =>
            simp [hrest, bind, Except.bind, pure, Except.pure] at h

/-- The loop of lines 104-117 succeeds exactly when every record has a
`time.Time` timestamp and, in plain-text mode, a `string` content. -/
theorem encodeAll_isOk_iff (env : Env) (useJson : Bool) (l : List LogParts) :
    (∃ es, encodeAll env useJson l = Except.ok es) ↔
      ∀ r ∈ l, hasTimestamp r = true ∧ (useJson = true ∨ hasContent r = true) := by
  constructor
  · rintro ⟨es, hes⟩ r hr
    have hf := (encodeAll_ok_iff env useJson l es).1 hes
    have hex : ∃ e, encodeEvent env useJson r = Except.ok e := by
      clear hes
      induction hf with
      | nil => cases hr
      | cons h1 _ ih =>
        rcases List.mem_cons.1 hr with rfl | hr'
        · exact ⟨_, h1⟩
        · exact ih hr'
    obtain ⟨e, he⟩ := hex
    constructor
    · cases hts : hasTimestamp r
      · rw [encodeEvent_no_timestamp env useJson hts] at he; cases he
      · rfl
    · cases useJson
      · right
        cases hc : hasContent r
        · rw [encodeEvent_no_content env hc] at he; cases he
        · rfl
      · left; rfl
  · intro h
    cases hres : encodeAll env useJson l with
    | ok es => exact ⟨es, rfl⟩
    | error p =>
      obtain ⟨_, r, hr, hbad⟩ := encodeAll_error env useJson l p hres
      obtain ⟨h1, h2⟩ := h r hr
      rcases hbad with hb | ⟨hj, hb⟩
      · rw [h1] at hb; cases hb
      · rcases h2 with h2 | h2
        · rw [hj] at h2; cases h2
        · rw [h2] at hb; cases hb

/-- The request of `buildRequest`, when there is one. -/
theorem buildRequest_ok_iff (env : Env) (useJson : Bool) (buffer : List LogParts)
    (sequenceToken : String) (req : PutLogEventsInput) :
    buildRequest env useJson buffer sequenceToken = Except.ok req ↔
      (∀ r ∈ buffer, hasTimestamp r = true) ∧
      encodeAll env useJson (sortedBuffer env buffer) = Except.ok req.LogEvents ∧
      req.LogGroupName = env.logGroupName ∧ req.LogStreamName = env.streamName ∧
      req.SequenceToken = (if sequenceToken ≠ "" then some sequenceToken else none) := by
  unfold buildRequest
  by_cases hall : buffer.all hasTimestamp = true
  · have hall' : ∀ r ∈ buffer, hasTimestamp r = true := by simpa using hall
    rw [if_pos hall]
    cases henc : encodeAll env useJson (sortedBuffer env buffer) with
    | error p =>
      simp only [bind, Except.bind]
      constructor
      · intro h; cases h
      · rintro ⟨_, h, _⟩; cases h
    | ok es =>
      simp only [bind, Except.bind, pure, Except.pure]
      constructor
      · intro h
        cases h
        exact ⟨hall', rfl, rfl, rfl, rfl⟩
      · rintro ⟨_, h1, h2, h3, h4⟩
        cases req
        simp only at h1 h2 h3 h4
        cases h1
        subst h2 h3 h4
        rfl
  · rw [if_neg hall]
    constructor
    · intro h; cases h
    · rintro ⟨h, _⟩
      exact absurd (by simpa using h) hall

/-- `sendToCloudWatch` issues exactly the request of `buildRequest`. -/
theorem sendToCloudWatch_request (env : Env) (putLogEvents : PutLogEventsInput → CallResult)
    (useJson : Bool) (buffer : List LogParts) (sequenceToken : String) :
    (sendToCloudWatch env putLogEvents useJson buffer sequenceToken).request =
      (buildRequest env useJson buffer sequenceToken).toOption := by
  unfold sendToCloudWatch
  cases buildRequest env useJson buffer sequenceToken with
  | error p => rfl
  | ok params =>
    simp only [Except.toOption]
    split
    · rfl
    · split <;> rfl

theorem sendToCloudWatch_request_iff (env : Env) (putLogEvents : PutLogEventsInput → CallResult)
    (useJson : Bool) (buffer : List LogParts) (sequenceToken : String)
    (req : PutLogEventsInput) :
    (sendToCloudWatch env putLogEvents useJson buffer sequenceToken).request = some req ↔
      buildRequest env useJson buffer sequenceToken = Except.ok req := by
  rw [sendToCloudWatch_request]
  cases buildRequest env useJson buffer sequenceToken <;> simp [Except.toOption]

/-- On a buffer whose records all carry a timestamp, the result of line 102 is
a permutation of the buffer in which no record is later than its successor. -/
theorem sortedBuffer_sorted (env : Env) (hsort : SortSliceSpec env.sortSlice)
    (buffer : List LogParts) (hts : ∀ r ∈ buffer, hasTimestamp r = true) :
    (sortedBuffer env buffer).Perm buffer ∧
      (sortedBuffer env buffer).Pairwise (fun a b => less b a = false) := by
  have hsw := less_strictWeakOn buffer hts
  obtain ⟨hperm, hch⟩ := hsort less buffer hsw
  refine ⟨hperm, pairwise_of_sliceIsSorted less _ ?_ hch⟩
  exact less_strictWeakOn _ (fun r hr => hts r (hperm.subset hr))

/-- For records with timestamps, `less b a = false` says `a` is not later than `b`. -/
theorem notLater_of_less {a b : LogParts} (ha : hasTimestamp a = true)
    (hb : hasTimestamp b = true) (h : less b a = false) : NotLater a b := by
  obtain ⟨ta, hta⟩ := (hasTimestamp_iff a).1 ha
  obtain ⟨tb, htb⟩ := (hasTimestamp_iff b).1 hb
  rw [less_of_lookup htb hta] at h
  exact ⟨ta, tb, timestampOf_of_lookup hta, timestampOf_of_lookup htb, h⟩

/-! ## The Go runtime's `sort.Slice` on `batch13` -/

/-- On at most twelve elements `pdqsort_func` is `insertionSort_func`. -/
theorem pdqsort_small {α : Type} (lt : α → α → Bool) (next : Nat → Nat) (fuel : Nat)
    (data : List α) (a b limit : Nat) (wb wp : Bool) (h : b - a ≤ 12) :
    pdqsort_func lt next (fuel + 1) data a b limit wb wp = insertionSort_func lt data a b := by
  rw [pdqsort_func]
  simp only [h, if_true]

/-- One pass of `pdqsort_func` over a whole slice of more than twelve elements
in which the pivot search reports no swap, the slice is not yet sorted, the
partition is balanced and both parts are short: the generator is not used. -/
theorem pdqsort_func_balanced_pass {α : Type} (lt : α → α → Bool) (next : Nat → Nat)
    (fuel : Nat) (data data1 data2 data3 : List α) (b limit pivot mid : Nat) (wp : Bool)
    (hlen : ¬ b - 0 ≤ 12) (hlim : ¬ limit = 0)
    (hcp : choosePivot_func lt data 0 b = (pivot, sortedHint.increasingHint))
    (hpi : partialInsertionSort_func lt data 0 b = some (data, false))
    (hpart : partition_func lt data 0 b pivot = some (data1, mid, wp))
    (hleft : mid - 0 < b - mid)
    (hL : mid - 0 ≤ 12) (hR : b - (mid + 1) ≤ 12)
    (hsL : insertionSort_func lt data1 0 mid = some data2)
    (hsR : insertionSort_func lt data2 (mid + 1) b = some data3) :
    pdqsort_func lt next (fuel + 1 + 1) data 0 b limit true true = some data3 := by
  rw [pdqsort_func]
  simp only [hlen, hlim, hcp, if_false, Bool.not_true, Bool.false_eq_true, Bool.true_and,
    decide_True, if_true, reduceCtorEq, Option.bind_eq_bind, Option.some_bind, hpi,
    Nat.lt_irrefl, decide_False, Bool.false_and, hpart, hleft,
    pdqsort_small lt next fuel _ _ _ _ _ _ hL, pdqsort_small lt next fuel _ _ _ _ _ _ hR,
    hsL, hsR]

set_option maxRecDepth 100000 in
/-- What `sort.Slice` of Go 1.19 and later does to `batch13`, whatever the
generator. -/
theorem slicePdqsort_batch13 (next : Nat → Nat) :
    slicePdqsort less next batch13 = some batch13Pdqsort :=
  pdqsort_func_balanced_pass less next 12 batch13
    ((partition_func less batch13 0 13 6).getD ([], 0, false)).1
    ((insertionSort_func less
      ((partition_func less batch13 0 13 6).getD ([], 0, false)).1 0 1).getD [])
    batch13Pdqsort 13 4 6 1 false
    (by decide) (by decide) (by decide) (by decide) (by decide) (by decide) (by decide)
    (by decide) (by decide) (by decide)

set_option maxRecDepth 100000 in
/-- What `sort.Slice` of Go 1.8 to 1.18 does to `batch13`. -/
theorem sliceQuickSort_batch13 : sliceQuickSort less batch13 = some batch13QuickSort := by
  decide

/-- On at most twelve elements `sort.Slice` of Go 1.19 and later is
`insertionSort_func`, whatever the generator. -/
theorem slicePdqsort_small {α : Type} (lt : α → α → Bool) (next : Nat → Nat) (x : List α)
    (h : x.length ≤ 12) :
    slicePdqsort lt next x = insertionSort_func lt x 0 x.length := by
  unfold slicePdqsort
  exact pdqsort_small lt next x.length x 0 x.length _ true true (by omega)

/-- In plain-text mode the messages of the events are the contents of the
records they were built from. -/
theorem messages_of_encoded (env : Env) (l : List LogParts) (es : List InputLogEvent)
    (hf : List.Forall₂ (fun r e => encodeEvent env false r = Except.ok e) l es)
    (hs : ∀ r ∈ l, hasTimestamp r = true ∧ hasContent r = true) :
    es.map (fun e => e.Message) = l.filterMap contentOf := by
  induction hf with
  | nil => rfl
  | @cons r e l es' hre _ ih =>
    have hr := hs r (List.mem_cons_self _ _)
    obtain ⟨t, ht⟩ := (hasTimestamp_iff r).1 hr.1
    obtain ⟨c, hc⟩ := (hasContent_iff r).1 hr.2
    rw [encodeEvent_plain env ht hc] at hre
    injection hre with hre
    subst hre
    simp only [List.map_cons, List.filterMap_cons, contentOf_of_lookup hc]
    rw [ih (fun r' hr' => hs r' (List.mem_cons_of_mem _ hr'))]

/-- In plain-text mode the messages of the request are the contents of the
sorted buffer, in its order. -/
theorem requestMessages_plain (env : Env) (putLogEvents : PutLogEventsInput → CallResult)
    (B : List LogParts) (sequenceToken : String) (hts : ∀ r ∈ B, hasTimestamp r = true)
    (hs : ∀ r ∈ sortedBuffer env B, hasTimestamp r = true ∧ hasContent r = true) :
    requestMessages (sendToCloudWatch env putLogEvents false B sequenceToken) =
      some ((sortedBuffer env B).filterMap contentOf) := by
  obtain ⟨es, hes⟩ := (encodeAll_isOk_iff env false (sortedBuffer env B)).2
    (fun r hr => ⟨(hs r hr).1, Or.inr (hs r hr).2⟩)
  have hbuild : buildRequest env false B sequenceToken =
      Except.ok { LogGroupName := env.logGroupName, LogStreamName := env.streamName,
                  LogEvents := es,
                  SequenceToken := if sequenceToken ≠ "" then some sequenceToken else none } :=
    (buildRequest_ok_iff env false B sequenceToken _).2 ⟨hts, hes, rfl, rfl, rfl⟩
  have hreq := (sendToCloudWatch_request_iff env putLogEvents false B sequenceToken _).2 hbuild
  unfold requestMessages
  rw [hreq]
  simp only [Option.map_some', Option.some.injEq]
  exact messages_of_encoded env _ _ ((encodeAll_ok_iff env false _ _).1 hes) hs

set_option maxRecDepth 100000 in
/-- What `sort.Slice` of Go 1.19 and later does to `batchCAB`, whatever the
generator. -/
theorem sortedBuffer_pdqsortEnv_batchCAB (next : Nat → Nat) :
    sortedBuffer (pdqsortEnv next) batchCAB = batchABC := by
  have h : insertionSort_func less batchCAB 0 batchCAB.length = some batchABC := by decide
  simp only [sortedBuffer, pdqsortEnv, slicePdqsort_small less next batchCAB (by decide), h,
    Option.getD_some]

theorem sortedBuffer_pdqsortEnv_batch13 (next : Nat → Nat) :
    sortedBuffer (pdqsortEnv next) batch13 = batch13Pdqsort := by
  simp only [sortedBuffer, pdqsortEnv, slicePdqsort_batch13, Option.getD_some]

theorem sortedBuffer_quickSortEnv_batch13 :
    sortedBuffer quickSortEnv batch13 = batch13QuickSort := by
  simp only [sortedBuffer, quickSortEnv, sliceQuickSort_batch13, Option.getD_some]

set_option maxRecDepth 100000 in
/-- The request built from `batchCAB` when `sort.Slice` is the one of Go 1.19
and later. -/
theorem requestMessages_pdqsortEnv_batchCAB (next : Nat → Nat) :
    requestMessages (sendToCloudWatch (pdqsortEnv next) (okReply "t1") false batchCAB "") =
      some ["a", "b", "c"] := by
  rw [requestMessages_plain (pdqsortEnv next) (okReply "t1") batchCAB "" (by decide)
    (by rw [sortedBuffer_pdqsortEnv_batchCAB]; decide), sortedBuffer_pdqsortEnv_batchCAB]
  decide

set_option maxRecDepth 100000 in
/-- The request built from `batch13` when `sort.Slice` is the one of Go 1.19
and later. -/
theorem requestMessages_pdqsortEnv_batch13 (next : Nat → Nat) :
    requestMessages (sendToCloudWatch (pdqsortEnv next) (okReply "t1") false batch13 "") =
      some ["r12", "r6", "r2", "r3", "r4", "r5", "r0", "r7", "r8", "r9", "r10", "r11", "r1"] := by
  rw [requestMessages_plain (pdqsortEnv next) (okReply "t1") batch13 "" (by decide)
    (by rw [sortedBuffer_pdqsortEnv_batch13]; decide), sortedBuffer_pdqsortEnv_batch13]
  decide

/-! ## Timestamps inside the range of `int64` -/

theorem lookup_of_timestampOf {r : LogParts} {t : Time} (h : timestampOf r = some t) :
    r.lookup "timestamp" = some (Value.time t) := by
  unfold timestampOf at h
  split at h
  · next t' h' =>
    injection h with h
    rw [h', h]
  · cases h

/-- Inside the range of `int64` the count `UnixNano` is the count of the instant. -/
theorem unixNano_of_inRange (t : Time) (h : InInt64Range t) : t.UnixNano = t.unixNanos := by
  obtain ⟨h1, h2⟩ := h
  unfold Time.UnixNano wrapInt64
  omega

/-! ## C1: the events are ordered by timestamp and are a permutation of the batch -/

/-- C1. For every batch `B` whose records each carry a timestamp, and every
`sort.Slice` meeting its contract: `sendToCloudWatch` issues an append request
exactly when, in plain-text mode, every record also has a string content; and
the events of that request are, one per record and in order, the events of
`sortedBuffer env B`, which is a permutation of `B` in which every record is
followed by one whose timestamp is not before its own. -/
theorem C1_events_sorted_permutation (env : Env) (hsort : SortSliceSpec env.sortSlice)
    (putLogEvents : PutLogEventsInput → CallResult) (useJson : Bool) (B : List LogParts)
    (sequenceToken : String) (hts : ∀ r ∈ B, hasTimestamp r = true) :
    ((∃ req, (sendToCloudWatch env putLogEvents useJson B sequenceToken).request = some req) ↔
        (useJson = true ∨ ∀ r ∈ B, hasContent r = true)) ∧
      ∀ req, (sendToCloudWatch env putLogEvents useJson B sequenceToken).request = some req →
        (sortedBuffer env B).Perm B ∧
        List.Chain' NotLater (sortedBuffer env B) ∧
        List.Forall₂ (fun r e => encodeEvent env useJson r = Except.ok e)
          (sortedBuffer env B) req.LogEvents ∧
        req.LogEvents.length = B.length := by
  obtain ⟨hperm, hpw⟩ := sortedBuffer_sorted env hsort B hts
  have hts' : ∀ r ∈ sortedBuffer env B, hasTimestamp r = true :=
    fun r hr => hts r (hperm.subset hr)
  constructor
  · constructor
    · rintro ⟨req, hreq⟩
      rw [sendToCloudWatch_request_iff, buildRequest_ok_iff] at hreq
      have h := (encodeAll_isOk_iff env useJson _).1 ⟨_, hreq.2.1⟩
      cases useJson
      · right
        intro r hr
        rcases (h r (hperm.symm.subset hr)).2 with h' | h'
        · cases h'
        · exact h'
      · left; rfl
    · intro h
      have hall : ∀ r ∈ sortedBuffer env B,
          hasTimestamp r = true ∧ (useJson = true ∨ hasContent r = true) := by
        intro r hr
        refine ⟨hts' r hr, ?_⟩
        rcases h with h | h
        · exact Or.inl h
        · exact Or.inr (h r (hperm.subset hr))
      obtain ⟨es, hes⟩ := (encodeAll_isOk_iff env useJson _).2 hall
      refine ⟨{ LogGroupName := env.logGroupName, LogStreamName := env.streamName,
                LogEvents := es,
                SequenceToken := if sequenceToken ≠ "" then some sequenceToken else none }, ?_⟩
      rw [sendToCloudWatch_request_iff, buildRequest_ok_iff]
      exact ⟨hts, hes, rfl, rfl, rfl⟩
  · intro req hreq
    rw [sendToCloudWatch_request_iff, buildRequest_ok_iff] at hreq
    have hf := (encodeAll_ok_iff env useJson _ _).1 hreq.2.1
    refine ⟨hperm, ?_, hf, ?_⟩
    · refine List.Pairwise.chain' ?_
      exact hpw.imp_of_mem (fun ha hb h => notLater_of_less (hts' _ ha) (hts' _ hb) h)
    · rw [← hf.length_eq, hperm.length_eq]

/-- C1 at the batch stamped `[10:00:02, 10:00:00, 10:00:01]` with contents
`["c", "a", "b"]`: the request carries the events `["a", "b", "c"]`, with the
stable insertion sort as with the two `sort.Slice` of the Go runtime. -/
theorem C1_events_sorted_permutation_witness :
    SortSliceSpec stableEnv.sortSlice ∧
    (∀ r ∈ batchCAB, hasTimestamp r = true) ∧
    (((∃ req, (sendToCloudWatch stableEnv (okReply "t1") false batchCAB "").request = some req) ↔
        (false = true ∨ ∀ r ∈ batchCAB, hasContent r = true)) ∧
      ∀ req, (sendToCloudWatch stableEnv (okReply "t1") false batchCAB "").request = some req →
        (sortedBuffer stableEnv batchCAB).Perm batchCAB ∧
        List.Chain' NotLater (sortedBuffer stableEnv batchCAB) ∧
        List.Forall₂ (fun r e => encodeEvent stableEnv false r = Except.ok e)
          (sortedBuffer stableEnv batchCAB) req.LogEvents ∧
        req.LogEvents.length = batchCAB.length) ∧
    requestMessages (sendToCloudWatch stableEnv (okReply "t1") false batchCAB "") =
      some ["a", "b", "c"] ∧
    requestMessages (sendToCloudWatch quickSortEnv (okReply "t1") false batchCAB "") =
      some ["a", "b", "c"] ∧
    (∀ next : Nat → Nat,
      requestMessages (sendToCloudWatch (pdqsortEnv next) (okReply "t1") false batchCAB "") =
        some ["a", "b", "c"]) :=
  ⟨insertionSortStable_spec, by decide,
    C1_events_sorted_permutation stableEnv insertionSortStable_spec (okReply "t1") false
      batchCAB "" (by decide),
    by decide, by decide, requestMessages_pdqsortEnv_batchCAB⟩

/-! ## C2: stability of the ordering step -/

set_option maxRecDepth 100000 in
/-- C2, refuted. Stability does not follow from the contract of `sort.Slice`:
a sort that meets the contract leaves the two equally stamped records of
`batchXY` in the order `"y"`, `"x"`. Nor does the Go runtime provide it on
`batch13`, twelve records stamped 10:00:01 followed by one stamped 10:00:00:
both the `sort.Slice` of Go 1.19 and later (whatever its generator) and the one
of Go 1.8 to 1.18 put `"r6"` before `"r0"`, and the request carries the events
in that order. -/
theorem C2_stable_order_counterexample :
    ¬ (∀ env : Env, SortSliceSpec env.sortSlice → StableDispatch env) ∧
    (SortSliceSpec reversingEnv.sortSlice ∧
      requestMessages (sendToCloudWatch reversingEnv (okReply "t1") false batchXY "") =
        some ["y", "x"]) ∧
    (∀ next : Nat → Nat, slicePdqsort less next batch13 = some batch13Pdqsort) ∧
    (∀ next : Nat → Nat, ¬ StableDispatch (pdqsortEnv next)) ∧
    sliceQuickSort less batch13 = some batch13QuickSort ∧
    ¬ StableDispatch quickSortEnv ∧
    requestMessages (sendToCloudWatch quickSortEnv (okReply "t1") false batch13 "") =
      some ["r12", "r6", "r2", "r3", "r4", "r5", "r1", "r7", "r8", "r9", "r10", "r11", "r0"] ∧
    (∀ next : Nat → Nat,
      requestMessages (sendToCloudWatch (pdqsortEnv next) (okReply "t1") false batch13 "") =
        some ["r12", "r6", "r2", "r3", "r4", "r5", "r0", "r7", "r8", "r9", "r10", "r11",
          "r1"]) := by
  refine ⟨?_, ⟨insertionSortRev_spec, by decide⟩, slicePdqsort_batch13, ?_,
    sliceQuickSort_batch13, ?_, by decide, requestMessages_pdqsortEnv_batch13⟩
  · intro h
    have h1 := h reversingEnv insertionSortRev_spec batchXY (by decide)
      { unixNanos := 36000000000000 }
    revert h1
    decide
  · intro next h
    have h1 := h batch13 (by decide) { unixNanos := 36001000000000 }
    rw [sortedBuffer_pdqsortEnv_batch13] at h1
    revert h1
    decide
  · intro h
    have h1 := h batch13 (by decide) { unixNanos := 36001000000000 }
    rw [sortedBuffer_quickSortEnv_batch13] at h1
    revert h1
    decide

/-- C2, amended. Whatever `sort.Slice` does with equal timestamps, under its
contract the order of the request is fixed by the timestamps that differ: the
`i`-th event of the request is the event of the `i`-th record of
`sortedBuffer env B`, a permutation of `B`, and a record whose timestamp is
strictly before that of another stands before it, whatever their arrival
order. -/
theorem C2_earlier_timestamp_precedes (env : Env) (hsort : SortSliceSpec env.sortSlice)
    (putLogEvents : PutLogEventsInput → CallResult) (useJson : Bool) (B : List LogParts)
    (sequenceToken : String) (hts : ∀ r ∈ B, hasTimestamp r = true) (req : PutLogEventsInput)
    (hreq : (sendToCloudWatch env putLogEvents useJson B sequenceToken).request = some req) :
    List.Forall₂ (fun r e => encodeEvent env useJson r = Except.ok e)
        (sortedBuffer env B) req.LogEvents ∧
      (sortedBuffer env B).Perm B ∧
      ∀ (i j : Nat) (hi : i < (sortedBuffer env B).length)
        (hj : j < (sortedBuffer env B).length) (ti tj : Time),
        timestampOf ((sortedBuffer env B).get ⟨i, hi⟩) = some ti →
        timestampOf ((sortedBuffer env B).get ⟨j, hj⟩) = some tj →
        ti.Before tj = true → i < j := by
  obtain ⟨hperm, hpw⟩ := sortedBuffer_sorted env hsort B hts
  rw [sendToCloudWatch_request_iff, buildRequest_ok_iff] at hreq
  refine ⟨(encodeAll_ok_iff env useJson _ _).1 hreq.2.1, hperm, ?_⟩
  intro i j hi hj ti tj hti htj hlt
  by_contra hij
  have hji : j ≤ i := Nat.le_of_not_lt hij
  have hmemi : (sortedBuffer env B).get ⟨i, hi⟩ ∈ sortedBuffer env B := List.get_mem _ _ _
  have hmemj : (sortedBuffer env B).get ⟨j, hj⟩ ∈ sortedBuffer env B := List.get_mem _ _ _
  obtain ⟨ti', hi'⟩ := (hasTimestamp_iff _).1 (hts _ (hperm.subset hmemi))
  obtain ⟨tj', hj'⟩ := (hasTimestamp_iff _).1 (hts _ (hperm.subset hmemj))
  have e1 : ti' = ti := by
    have := timestampOf_of_lookup hi'
    rw [hti] at this
    exact (Option.some.inj this).symm
  have e2 : tj' = tj := by
    have := timestampOf_of_lookup hj'
    rw [htj] at this
    exact (Option.some.inj this).symm
  subst e1 e2
  have hless : less ((sortedBuffer env B).get ⟨i, hi⟩) ((sortedBuffer env B).get ⟨j, hj⟩) = true := by
    rw [less_of_lookup hi' hj']; exact hlt
  rcases Nat.lt_or_eq_of_le hji with hlt' | heq
  · have := (List.pairwise_iff_getElem.1 hpw) j i hj hi hlt'
    simp only [List.get_eq_getElem] at hless
    rw [this] at hless
    cases hless
  · subst heq
    rw [less_of_lookup hi' hi'] at hless
    simp [Time.Before] at hless

/-- C2 amended, at the batch stamped `[10:00:02, 10:00:00, 10:00:01]`. -/
theorem C2_earlier_timestamp_precedes_witness :
    SortSliceSpec stableEnv.sortSlice ∧
    (∀ r ∈ batchCAB, hasTimestamp r = true) ∧
    (sendToCloudWatch stableEnv (okReply "t1") false batchCAB "").request =
      some { LogGroupName := "group", LogStreamName := "stream",
             LogEvents := [{ Message := "a", Timestamp := 36000000 },
                           { Message := "b", Timestamp := 36001000 },
                           { Message := "c", Timestamp := 36002000 }],
             SequenceToken := none } ∧
    (List.Forall₂ (fun r e => encodeEvent stableEnv false r = Except.ok e)
        (sortedBuffer stableEnv batchCAB)
        [{ Message := "a", Timestamp := 36000000 }, { Message := "b", Timestamp := 36001000 },
         { Message := "c", Timestamp := 36002000 }] ∧
      (sortedBuffer stableEnv batchCAB).Perm batchCAB ∧
      ∀ (i j : Nat) (hi : i < (sortedBuffer stableEnv batchCAB).length)
        (hj : j < (sortedBuffer stableEnv batchCAB).length) (ti tj : Time),
        timestampOf ((sortedBuffer stableEnv batchCAB).get ⟨i, hi⟩) = some ti →
        timestampOf ((sortedBuffer stableEnv batchCAB).get ⟨j, hj⟩) = some tj →
        ti.Before tj = true → i < j) :=
  ⟨insertionSortStable_spec, by decide, by decide,
    C2_earlier_timestamp_precedes stableEnv insertionSortStable_spec (okReply "t1") false
      batchCAB "" (by decide)
      { LogGroupName := "group", LogStreamName := "stream",
        LogEvents := [{ Message := "a", Timestamp := 36000000 },
                      { Message := "b", Timestamp := 36001000 },
                      { Message := "c", Timestamp := 36002000 }],
        SequenceToken := none } (by decide)⟩

/-! ## C6: the events of plain-text mode -/

/-- C6, refuted. The two records of `batchOverflow` each have a string content
and a time timestamp; the second is stamped one nanosecond after the last
instant whose nanosecond count fits an `int64`, 9223372036854 ms after the
epoch. In plain-text mode its event carries the `Timestamp` -9223372036854
(`UnixNano` has wrapped), with the stable insertion sort as with the
`sort.Slice` of Go 1.8 to 1.18. -/
theorem C6_timestamp_counterexample :
    (∀ r ∈ batchOverflow, hasTimestamp r = true) ∧
    (∀ r ∈ batchOverflow, hasContent r = true) ∧
    batchOverflow.map timestampOf = [some lastInt64Instant, some firstWrappedInstant] ∧
    Int.tdiv firstWrappedInstant.unixNanos 1000000 = 9223372036854 ∧
    (sendToCloudWatch stableEnv (okReply "t1") false batchOverflow "").request.map
      (fun req => req.LogEvents) =
      some [{ Message := "last", Timestamp := 9223372036854 },
            { Message := "wrapped", Timestamp := -9223372036854 }] ∧
    (sendToCloudWatch quickSortEnv (okReply "t1") false batchOverflow "").request.map
      (fun req => req.LogEvents) =
      some [{ Message := "last", Timestamp := 9223372036854 },
            { Message := "wrapped", Timestamp := -9223372036854 }] ∧
    ¬ ((-9223372036854 : Int) = Int.tdiv firstWrappedInstant.unixNanos 1000000) := by
  refine ⟨by decide, by decide, by decide, by decide, by decide, by decide, by decide⟩

/-- C6, amended. In plain-text mode, for every batch `B` whose records each
have a string content and a time timestamp whose nanosecond count since the
epoch fits an `int64` (and every `sort.Slice` meeting its contract), the
append request has exactly `len(B)` events, and the `i`-th event has as
`Message` the content of the `i`-th record of the sorted batch and as
`Timestamp` that record's timestamp in milliseconds since the epoch: the
nanosecond count of its instant divided by 1,000,000 with Go's truncating
division. -/
theorem C6_plain_text_events (env : Env) (hsort : SortSliceSpec env.sortSlice)
    (putLogEvents : PutLogEventsInput → CallResult) (B : List LogParts)
    (sequenceToken : String)
    (hrange : ∀ r ∈ B, ∃ t, timestampOf r = some t ∧ InInt64Range t)
    (hc : ∀ r ∈ B, hasContent r = true) :
    ∃ req, (sendToCloudWatch env putLogEvents false B sequenceToken).request = some req ∧
      req.LogEvents.length = B.length ∧
      (sortedBuffer env B).length = B.length ∧
      ∀ (i : Nat) (hi : i < req.LogEvents.length) (hs : i < (sortedBuffer env B).length),
        contentOf ((sortedBuffer env B).get ⟨i, hs⟩) =
            some (req.LogEvents.get ⟨i, hi⟩).Message ∧
          ∃ t, timestampOf ((sortedBuffer env B).get ⟨i, hs⟩) = some t ∧
            (req.LogEvents.get ⟨i, hi⟩).Timestamp = Int.tdiv t.unixNanos 1000000 := by
  have hts : ∀ r ∈ B, hasTimestamp r = true := by
    intro r hr
    obtain ⟨t, ht, _⟩ := hrange r hr
    exact (hasTimestamp_iff r).2 ⟨t, lookup_of_timestampOf ht⟩
  obtain ⟨hperm, _⟩ := sortedBuffer_sorted env hsort B hts
  have hgood : ∀ r ∈ sortedBuffer env B,
      hasTimestamp r = true ∧ (false = true ∨ hasContent r = true) :=
    fun r hr => ⟨hts r (hperm.subset hr), Or.inr (hc r (hperm.subset hr))⟩
  obtain ⟨es, hes⟩ := (encodeAll_isOk_iff env false _).2 hgood
  have hf := (encodeAll_ok_iff env false _ _).1 hes
  refine ⟨{ LogGroupName := env.logGroupName, LogStreamName := env.streamName,
            LogEvents := es,
            SequenceToken := if sequenceToken ≠ "" then some sequenceToken else none },
    ?_, ?_, hperm.length_eq, ?_⟩
  · rw [sendToCloudWatch_request_iff, buildRequest_ok_iff]
    exact ⟨hts, hes, rfl, rfl, rfl⟩
  · show es.length = B.length
    rw [← hf.length_eq, hperm.length_eq]
  show ∀ (i : Nat) (hi : i < es.length) (hs : i < (sortedBuffer env B).length),
    contentOf ((sortedBuffer env B).get ⟨i, hs⟩) = some (es.get ⟨i, hi⟩).Message ∧
      ∃ t, timestampOf ((sortedBuffer env B).get ⟨i, hs⟩) = some t ∧
        (es.get ⟨i, hi⟩).Timestamp = Int.tdiv t.unixNanos 1000000
  intro i hi hs
  have hmem : (sortedBuffer env B).get ⟨i, hs⟩ ∈ sortedBuffer env B := List.get_mem _ _ _
  obtain ⟨t, htof, htr⟩ := hrange _ (hperm.subset hmem)
  have ht := lookup_of_timestampOf htof
  obtain ⟨s, hs'⟩ := (hasContent_iff _).1 (hc _ (hperm.subset hmem))
  have hev := List.Forall₂.get hf hs hi
  simp only [List.get_eq_getElem] at ht hs' hev htof ⊢
  rw [encodeEvent_plain env ht hs'] at hev
  injection hev with hev
  rw [← hev]
  refine ⟨contentOf_of_lookup hs', t, htof, ?_⟩
  show makeMilliTimestamp t = Int.tdiv t.unixNanos 1000000
  unfold makeMilliTimestamp Millisecond
  rw [unixNano_of_inRange t htr]

/-- C6 amended, at the batch stamped `[10:00:02, 10:00:00, 10:00:01]`; at a
batch stamped before the epoch the instants 2.5 ms, 1.5 ms and 0.5 ms before
it get the timestamps -2, -1 and 0. -/
theorem C6_plain_text_events_witness :
    SortSliceSpec stableEnv.sortSlice ∧
    (∀ r ∈ batchCAB, ∃ t, timestampOf r = some t ∧ InInt64Range t) ∧
    (∀ r ∈ batchCAB, hasContent r = true) ∧
    (∃ req, (sendToCloudWatch stableEnv (okReply "t1") false batchCAB "").request = some req ∧
      req.LogEvents.length = batchCAB.length ∧
      (sortedBuffer stableEnv batchCAB).length = batchCAB.length ∧
      ∀ (i : Nat) (hi : i < req.LogEvents.length)
        (hs : i < (sortedBuffer stableEnv batchCAB).length),
        contentOf ((sortedBuffer stableEnv batchCAB).get ⟨i, hs⟩) =
            some (req.LogEvents.get ⟨i, hi⟩).Message ∧
          ∃ t, timestampOf ((sortedBuffer stableEnv batchCAB).get ⟨i, hs⟩) = some t ∧
            (req.LogEvents.get ⟨i, hi⟩).Timestamp = Int.tdiv t.unixNanos 1000000) ∧
    (sendToCloudWatch stableEnv (okReply "t1") false batchCAB "").request.map
      (fun req => req.LogEvents) =
      some [{ Message := "a", Timestamp := 36000000 }, { Message := "b", Timestamp := 36001000 },
            { Message := "c", Timestamp := 36002000 }] ∧
    (sendToCloudWatch stableEnv (okReply "t1") false batchBeforeEpoch "").request.map
      (fun req => req.LogEvents) =
      some [{ Message := "q", Timestamp := -2 }, { Message := "p", Timestamp := -1 },
            { Message := "r", Timestamp := 0 }] :=
  have hrange : ∀ r ∈ batchCAB, ∃ t, timestampOf r = some t ∧ InInt64Range t := by
    intro r hr
    simp only [batchCAB, List.mem_cons, List.mem_singleton, List.not_mem_nil,
      or_false] at hr
    rcases hr with rfl | rfl | rfl
    · exact ⟨_, rfl, by decide, by decide⟩
    · exact ⟨_, rfl, by decide, by decide⟩
    · exact ⟨_, rfl, by decide, by decide⟩
  ⟨insertionSortStable_spec, hrange, by decide,
    C6_plain_text_events stableEnv insertionSortStable_spec (okReply "t1") batchCAB ""
      hrange (by decide),
    by decide, by decide⟩

/-! ## C10: the unchecked type assertions -/

/-- C10. Under the contract of `sort.Slice`: when every record of the batch
holds a `time.Time` timestamp and, in plain-text mode, a string content, no
assertion fails and the request is built with one event per record; when some
record lacks the content in plain-text mode, or lacks a `time.Time` timestamp
in either mode, `sendToCloudWatch` panics on the failed assertion without
issuing a request. -/
theorem C10_type_assertions (env : Env) (hsort : SortSliceSpec env.sortSlice)
    (putLogEvents : PutLogEventsInput → CallResult) (useJson : Bool) (B : List LogParts)
    (sequenceToken : String) :
    ((∀ r ∈ B, hasTimestamp r = true ∧ (useJson = true ∨ hasContent r = true)) →
        ∃ req, buildRequest env useJson B sequenceToken = Except.ok req ∧
          (sendToCloudWatch env putLogEvents useJson B sequenceToken).request = some req ∧
          req.LogEvents.length = B.length) ∧
      ((∃ r ∈ B, hasTimestamp r = false ∨ (useJson = false ∧ hasContent r = false)) →
        buildRequest env useJson B sequenceToken = Except.error Panic.typeAssertion ∧
          (sendToCloudWatch env putLogEvents useJson B sequenceToken).request = none ∧
          (sendToCloudWatch env putLogEvents useJson B sequenceToken).outcome =
            Except.error Panic.typeAssertion) := by
  constructor
  · intro hgood
    have hts : ∀ r ∈ B, hasTimestamp r = true := fun r hr => (hgood r hr).1
    obtain ⟨hperm, _⟩ := sortedBuffer_sorted env hsort B hts
    obtain ⟨es, hes⟩ := (encodeAll_isOk_iff env useJson (sortedBuffer env B)).2
      (fun r hr => hgood r (hperm.subset hr))
    have hf := (encodeAll_ok_iff env useJson _ _).1 hes
    have hbuild : buildRequest env useJson B sequenceToken =
        Except.ok { LogGroupName := env.logGroupName, LogStreamName := env.streamName,
                    LogEvents := es,
                    SequenceToken := if sequenceToken ≠ "" then some sequenceToken else none } :=
      (buildRequest_ok_iff env useJson B sequenceToken _).2 ⟨hts, hes, rfl, rfl, rfl⟩
    refine ⟨_, hbuild, (sendToCloudWatch_request_iff env putLogEvents useJson B _ _).2 hbuild, ?_⟩
    show es.length = B.length
    rw [← hf.length_eq, hperm.length_eq]
  · rintro ⟨r, hr, hbad⟩
    have hbuild : buildRequest env useJson B sequenceToken =
        Except.error Panic.typeAssertion := by
      unfold buildRequest
      by_cases hall : B.all hasTimestamp = true
      · have hts : ∀ r ∈ B, hasTimestamp r = true := by simpa using hall
        obtain ⟨hperm, _⟩ := sortedBuffer_sorted env hsort B hts
        rw [if_pos hall]
        cases henc : encodeAll env useJson (sortedBuffer env B) with
        | error p =>
          obtain ⟨hp, _⟩ := encodeAll_error env useJson _ p henc
          subst hp
          rfl
        | ok es =>
          exfalso
          obtain ⟨h1, h2⟩ := (encodeAll_isOk_iff env useJson _).1 ⟨es, henc⟩ r
            (hperm.symm.subset hr)
          rcases hbad with hb | ⟨hj, hb⟩
          · rw [h1] at hb; cases hb
          · rcases h2 with h2 | h2
            · rw [hj] at h2; cases h2
            · rw [h2] at hb; cases hb
      · rw [if_neg hall]
    refine ⟨hbuild, ?_, ?_⟩
    · rw [sendToCloudWatch_request, hbuild]; rfl
    · unfold sendToCloudWatch; rw [hbuild]

/-- C10 at a well-formed batch, at a batch with a record that has no
`"content"`, and at a batch with a record whose `"timestamp"` is not a time. -/
theorem C10_type_assertions_witness :
    SortSliceSpec stableEnv.sortSlice ∧
    (∀ r ∈ batchCAB, hasTimestamp r = true ∧ (false = true ∨ hasContent r = true)) ∧
    (∃ r ∈ [mkRecord 36000000000000 "a", recordNoContent],
      hasTimestamp r = false ∨ (false = false ∧ hasContent r = false)) ∧
    (∃ r ∈ [recordNoTimestamp],
      hasTimestamp r = false ∨ (true = false ∧ hasContent r = false)) ∧
    (∃ req, buildRequest stableEnv false batchCAB "" = Except.ok req ∧
      (sendToCloudWatch stableEnv (okReply "t1") false batchCAB "").request = some req ∧
      req.LogEvents.length = batchCAB.length) ∧
    (buildRequest stableEnv false [mkRecord 36000000000000 "a", recordNoContent] "" =
        Except.error Panic.typeAssertion ∧
      (sendToCloudWatch stableEnv (okReply "t1") false
        [mkRecord 36000000000000 "a", recordNoContent] "").request = none ∧
      (sendToCloudWatch stableEnv (okReply "t1") false
        [mkRecord 36000000000000 "a", recordNoContent] "").outcome =
          Except.error Panic.typeAssertion) ∧
    (buildRequest stableEnv true [recordNoTimestamp] "" = Except.error Panic.typeAssertion ∧
      (sendToCloudWatch stableEnv (okReply "t1") true [recordNoTimestamp] "").request = none ∧
      (sendToCloudWatch stableEnv (okReply "t1") true [recordNoTimestamp] "").outcome =
        Except.error Panic.typeAssertion) :=
  ⟨insertionSortStable_spec, by decide, by decide, by decide,
    (C10_type_assertions stableEnv insertionSortStable_spec (okReply "t1") false batchCAB "").1
      (by decide),
    (C10_type_assertions stableEnv insertionSortStable_spec (okReply "t1") false
      [mkRecord 36000000000000 "a", recordNoContent] "").2 (by decide),
    (C10_type_assertions stableEnv insertionSortStable_spec (okReply "t1") true
      [recordNoTimestamp] "").2 (by decide)⟩

/-! ## C9: `makeMilliTimestamp` and the order of the millisecond timestamps -/

/-- Go's truncating division by the positive constant 1,000,000 is monotone. -/
theorem tdiv_million_mono (a b : Int) (h : a ≤ b) :
    Int.tdiv a 1000000 ≤ Int.tdiv b 1000000 := by
  have key : ∀ x : Int, (0 ≤ x → Int.tdiv x 1000000 = x / 1000000) ∧
      (x < 0 → Int.tdiv x 1000000 = -((-x) / 1000000)) := by
    intro x
    constructor
    · intro hx
      exact Int.tdiv_eq_ediv hx (by decide)
    · intro hx
      have h1 := Int.neg_tdiv (-x) 1000000
      rw [neg_neg] at h1
      rw [h1, Int.tdiv_eq_ediv (by omega) (by decide)]
  rcases lt_or_le a 0 with ha | ha <;> rcases lt_or_le b 0 with hb | hb
  · rw [(key a).2 ha, (key b).2 hb]; omega
  · rw [(key a).2 ha, (key b).1 hb]; omega
  · omega
  · rw [(key a).1 ha, (key b).1 hb]; omega

/-- C9, refuted. `lastInt64Instant` is before `firstWrappedInstant`, but
`UnixNano` wraps on the second, so `makeMilliTimestamp` maps the earlier
instant to 9223372036854 and the later one to -9223372036854; the request
built from the two records carries these timestamps in this (decreasing)
order. -/
theorem C9_monotone_counterexample :
    lastInt64Instant.Before firstWrappedInstant = true ∧
    makeMilliTimestamp lastInt64Instant = 9223372036854 ∧
    makeMilliTimestamp firstWrappedInstant = -9223372036854 ∧
    ¬ (makeMilliTimestamp lastInt64Instant ≤ makeMilliTimestamp firstWrappedInstant) ∧
    (sendToCloudWatch stableEnv (okReply "t1") false batchOverflow "").request.map
      (fun req => req.LogEvents) =
      some [{ Message := "last", Timestamp := 9223372036854 },
            { Message := "wrapped", Timestamp := -9223372036854 }] := by
  refine ⟨by decide, by decide, by decide, by decide, by decide⟩

/-- C9, amended. On instants whose nanosecond count fits an `int64` (before
the epoch included) `makeMilliTimestamp` is monotone; hence, under the
contract of `sort.Slice`, for every batch whose timestamps are all in that
range the millisecond `Timestamp` fields of the request are non-decreasing in
request order. -/
theorem C9_monotone_in_int64_range (env : Env) (hsort : SortSliceSpec env.sortSlice)
    (putLogEvents : PutLogEventsInput → CallResult) (useJson : Bool) (B : List LogParts)
    (sequenceToken : String) (req : PutLogEventsInput)
    (hrange : ∀ r ∈ B, ∃ t, timestampOf r = some t ∧ InInt64Range t)
    (hreq : (sendToCloudWatch env putLogEvents useJson B sequenceToken).request = some req) :
    (∀ t1 t2 : Time, InInt64Range t1 → InInt64Range t2 → t2.Before t1 = false →
        makeMilliTimestamp t1 ≤ makeMilliTimestamp t2) ∧
      List.Pairwise (fun e1 e2 : InputLogEvent => e1.Timestamp ≤ e2.Timestamp)
        req.LogEvents := by
  have hmono : ∀ t1 t2 : Time, InInt64Range t1 → InInt64Range t2 → t2.Before t1 = false →
      makeMilliTimestamp t1 ≤ makeMilliTimestamp t2 := by
    intro t1 t2 h1 h2 hb
    unfold makeMilliTimestamp Millisecond
    rw [unixNano_of_inRange t1 h1, unixNano_of_inRange t2 h2]
    apply tdiv_million_mono
    simpa [Time.Before] using hb
  refine ⟨hmono, ?_⟩
  have hts : ∀ r ∈ B, hasTimestamp r = true := by
    intro r hr
    obtain ⟨t, ht, _⟩ := hrange r hr
    exact (hasTimestamp_iff r).2 ⟨t, lookup_of_timestampOf ht⟩
  obtain ⟨hperm, hpw⟩ := sortedBuffer_sorted env hsort B hts
  rw [sendToCloudWatch_request_iff, buildRequest_ok_iff] at hreq
  have hf := (encodeAll_ok_iff env useJson _ _).1 hreq.2.1
  -- transport the order of the sorted records to their events
  have hrel : ∀ (l : List LogParts) (es : List InputLogEvent),
      List.Forall₂ (fun r e => encodeEvent env useJson r = Except.ok e) l es →
      (∀ r ∈ l, r ∈ B) → l.Pairwise (fun a b => less b a = false) →
      es.Pairwise (fun e1 e2 : InputLogEvent => e1.Timestamp ≤ e2.Timestamp) := by
    intro l es hfl
    induction hfl with
    | nil => intro _ _; exact List.Pairwise.nil
    | @cons r e l' es' hre hrest ih =>
      intro hmem hp
      obtain ⟨hhead, htail⟩ := List.pairwise_cons.1 hp
      refine List.Pairwise.cons ?_ (ih (fun x hx => hmem x (List.mem_cons_of_mem _ hx)) htail)
      intro e' he'
      -- find the record behind `e'`
      have hex : ∃ r' ∈ l', encodeEvent env useJson r' = Except.ok e' := by
        clear ih htail hhead hp hmem
        induction hrest with
        | nil => cases he'
        | @cons r2 e2 l2 es2 h2 _ ih2 =>
          rcases List.mem_cons.1 he' with rfl | he2
          · exact ⟨r2, by simp, h2⟩
          · obtain ⟨r', hr', h'⟩ := ih2 he2
            exact ⟨r', List.mem_cons_of_mem _ hr', h'⟩
      obtain ⟨r', hr', hre'⟩ := hex
      obtain ⟨t, ht, htr⟩ := hrange r (hmem r (by simp))
      obtain ⟨t', ht', htr'⟩ := hrange r' (hmem r' (List.mem_cons_of_mem _ hr'))
      obtain ⟨u, hu⟩ := (hasTimestamp_iff r).1 (hts r (hmem r (by simp)))
      obtain ⟨u', hu'⟩ := (hasTimestamp_iff r').1 (hts r' (hmem r' (List.mem_cons_of_mem _ hr')))
      have e1 : u = t := by
        have := timestampOf_of_lookup hu
        rw [ht] at this
        exact (Option.some.inj this).symm
      have e2 : u' = t' := by
        have := timestampOf_of_lookup hu'
        rw [ht'] at this
        exact (Option.some.inj this).symm
      subst e1 e2
      have hless := hhead r' hr'
      rw [less_of_lookup hu' hu] at hless
      have hle := hmono u u' htr htr' hless
      -- the timestamps of the two events
      have hT : e.Timestamp = makeMilliTimestamp u := by
        cases useJson
        · obtain ⟨s, hs⟩ : ∃ s, r.lookup "content" = some (Value.str s) := by
            apply (hasContent_iff r).1
            cases hc : hasContent r
            · rw [encodeEvent_no_content env hc] at hre; cases hre
            · rfl
          rw [encodeEvent_plain env hu hs] at hre
          injection hre with hre
          rw [← hre]
        · rw [encodeEvent_json env hu] at hre
          injection hre with hre
          rw [← hre]
      have hT' : e'.Timestamp = makeMilliTimestamp u' := by
        cases useJson
        · obtain ⟨s, hs⟩ : ∃ s, r'.lookup "content" = some (Value.str s) := by
            apply (hasContent_iff r').1
            cases hc : hasContent r'
            · rw [encodeEvent_no_content env hc] at hre'; cases hre'
            · rfl
          rw [encodeEvent_plain env hu' hs] at hre'
          injection hre' with hre'
          rw [← hre']
        · rw [encodeEvent_json env hu'] at hre'
          injection hre' with hre'
          rw [← hre']
      rw [hT, hT']
      exact hle
  exact hrel _ _ hf (fun r hr => hperm.subset hr) hpw

/-- C9 amended, at a batch stamped before the epoch: the instants 2.5 ms,
1.5 ms and 0.5 ms before it get the timestamps -2, -1 and 0. -/
theorem C9_monotone_in_int64_range_witness :
    SortSliceSpec stableEnv.sortSlice ∧
    (∀ r ∈ batchBeforeEpoch, ∃ t, timestampOf r = some t ∧ InInt64Range t) ∧
    (sendToCloudWatch stableEnv (okReply "t1") false batchBeforeEpoch "").request =
      some { LogGroupName := "group", LogStreamName := "stream",
             LogEvents := [{ Message := "q", Timestamp := -2 }, { Message := "p", Timestamp := -1 },
                           { Message := "r", Timestamp := 0 }],
             SequenceToken := none } ∧
    ((∀ t1 t2 : Time, InInt64Range t1 → InInt64Range t2 → t2.Before t1 = false →
        makeMilliTimestamp t1 ≤ makeMilliTimestamp t2) ∧
      List.Pairwise (fun e1 e2 : InputLogEvent => e1.Timestamp ≤ e2.Timestamp)
        [{ Message := "q", Timestamp := -2 }, { Message := "p", Timestamp := -1 },
         { Message := "r", Timestamp := 0 }]) :=
  have hrange : ∀ r ∈ batchBeforeEpoch, ∃ t, timestampOf r = some t ∧ InInt64Range t := by
    intro r hr
    simp only [batchBeforeEpoch, List.mem_cons, List.mem_singleton, List.not_mem_nil,
      or_false] at hr
    rcases hr with rfl | rfl | rfl
    · exact ⟨_, rfl, by decide, by decide⟩
    · exact ⟨_, rfl, by decide, by decide⟩
    · exact ⟨_, rfl, by decide, by decide⟩
  ⟨insertionSortStable_spec, hrange, by decide,
    C9_monotone_in_int64_range stableEnv insertionSortStable_spec (okReply "t1") false
      batchBeforeEpoch ""
      { LogGroupName := "group", LogStreamName := "stream",
        LogEvents := [{ Message := "q", Timestamp := -2 }, { Message := "p", Timestamp := -1 },
                      { Message := "r", Timestamp := 0 }],
        SequenceToken := none } hrange (by decide)⟩

/-! ## The aggregator loop: shared lemmas -/

/-- The three ways a call of `sendToCloudWatch` can go. -/
theorem sendToCloudWatch_cases (env : Env) (putLogEvents : PutLogEventsInput → CallResult)
    (useJson : Bool) (buffer : List LogParts) (sequenceToken : String) :
    (∃ p, buildRequest env useJson buffer sequenceToken = Except.error p ∧
        sendToCloudWatch env putLogEvents useJson buffer sequenceToken =
          { request := none, outcome := Except.error p }) ∨
      (∃ req, buildRequest env useJson buffer sequenceToken = Except.ok req ∧
        returnedToken (putLogEvents req) = none ∧
        sendToCloudWatch env putLogEvents useJson buffer sequenceToken =
          { request := some req, outcome := Except.error Panic.nilDereference }) ∨
      (∃ req tok, buildRequest env useJson buffer sequenceToken = Except.ok req ∧
        returnedToken (putLogEvents req) = some tok ∧
        sendToCloudWatch env putLogEvents useJson buffer sequenceToken =
          { request := some req, outcome := Except.ok tok }) := by
  unfold sendToCloudWatch returnedToken
  cases hb : buildRequest env useJson buffer sequenceToken with
  | error p => exact Or.inl ⟨p, rfl, rfl⟩
  | ok req =>
    right
    cases hr : (putLogEvents req).resp with
    | none => exact Or.inl ⟨req, rfl, by simp [hr], by simp [hr]⟩
    | some out =>
      cases ht : out.NextSequenceToken with
      | none => exact Or.inl ⟨req, rfl, by simp [hr, ht], by simp [hr, ht]⟩
      | some tok => exact Or.inr ⟨req, tok, rfl, by simp [hr, ht], by simp [hr, ht]⟩

/-- A tick on an empty accumulator changes nothing. -/
theorem loopStep_tick_empty (env : Env) (remote : Nat → PutLogEventsInput → CallResult)
    (useJson : Bool) (s : LoopState) (h : s.loglist = []) :
    loopStep env remote useJson s LoopEvent.tick = s := by
  simp [loopStep, h]

/-- A tick on a non-empty accumulator: the three ways it can go. -/
theorem loopStep_tick_cases (env : Env) (remote : Nat → PutLogEventsInput → CallResult)
    (useJson : Bool) (s : LoopState) (h : s.loglist ≠ []) :
    (∃ p, buildRequest env useJson s.loglist s.sequenceToken = Except.error p ∧
        loopStep env remote useJson s LoopEvent.tick =
          { loglist := s.loglist, sequenceToken := s.sequenceToken, requests := s.requests,
            handed := s.handed ++ [s.loglist], crashed := some p }) ∨
      (∃ req, buildRequest env useJson s.loglist s.sequenceToken = Except.ok req ∧
        returnedToken (remote s.requests.length req) = none ∧
        loopStep env remote useJson s LoopEvent.tick =
          { loglist := s.loglist, sequenceToken := s.sequenceToken,
            requests := s.requests ++ [req], handed := s.handed ++ [s.loglist],
            crashed := some Panic.nilDereference }) ∨
      (∃ req tok, buildRequest env useJson s.loglist s.sequenceToken = Except.ok req ∧
        returnedToken (remote s.requests.length req) = some tok ∧
        loopStep env remote useJson s LoopEvent.tick =
          { loglist := [], sequenceToken := tok,
            requests := s.requests ++ [req], handed := s.handed ++ [s.loglist],
            crashed := none }) := by
  have hlen : ¬ s.loglist.length ≤ 0 := by
    intro h0
    exact h (List.length_eq_zero.1 (Nat.le_zero.1 h0))
  rcases sendToCloudWatch_cases env (remote s.requests.length) useJson s.loglist
      s.sequenceToken with ⟨p, hb, hs⟩ | ⟨req, hb, ht, hs⟩ | ⟨req, tok, hb, ht, hs⟩
  · exact Or.inl ⟨p, hb, by simp [loopStep, hlen, hs]⟩
  · exact Or.inr (Or.inl ⟨req, hb, ht, by simp [loopStep, hlen, hs]⟩)
  · exact Or.inr (Or.inr ⟨req, tok, hb, ht, by simp [loopStep, hlen, hs]⟩)

/-- A property kept by every step taken by a live process holds after every run. -/
theorem loopRun_invariant (env : Env) (remote : Nat → PutLogEventsInput → CallResult)
    (useJson : Bool) (P : LoopState → Prop)
    (hstep : ∀ s e, s.crashed = none → P s → P (loopStep env remote useJson s e)) :
    ∀ (events : List LoopEvent) (s : LoopState), P s → P (loopRun env remote useJson s events)
  | [], s, hs => hs
  | e :: es, s, hs => by
    unfold loopRun
    cases hc : s.crashed with
    | some p => simpa [hc] using hs
    | none =>
      simp only [Option.isSome_none, Bool.false_eq_true, if_false]
      exact loopRun_invariant env remote useJson P hstep es _ (hstep s e hc hs)

/-! ## C4: a failed append -/

/-- C4, what the code does. With `sequenceToken` equal to `"token0"` and a
one-record batch, a failed `PutLogEvents` (as the SDK returns it, or with a nil
`resp`) makes `sendToCloudWatch` panic on line 130 after the request was sent:
it does not return. In the loop the panic ends the process, so the record of
the second flush window is never dispatched. More generally every reply
without a `NextSequenceToken` ends in that panic. -/
theorem C4_failed_append_panics :
    (sendToCloudWatch stableEnv failedReply false [mkRecord 36000000000000 "a"] "token0").request =
      some { LogGroupName := "group", LogStreamName := "stream",
             LogEvents := [{ Message := "a", Timestamp := 36000000 }],
             SequenceToken := some "token0" } ∧
    (sendToCloudWatch stableEnv failedReply false [mkRecord 36000000000000 "a"] "token0").outcome =
      Except.error Panic.nilDereference ∧
    (sendToCloudWatch stableEnv failedReplyNil false [mkRecord 36000000000000 "a"]
      "token0").outcome = Except.error Panic.nilDereference ∧
    (loopRun stableEnv failingFirstRemote false LoopState.init twoWindows).crashed =
      some Panic.nilDereference ∧
    ((loopRun stableEnv failingFirstRemote false LoopState.init twoWindows).requests.map
      (fun req => req.LogEvents.map (fun e => e.Message))) = [["first"]] ∧
    (∀ (env : Env) (putLogEvents : PutLogEventsInput → CallResult) (useJson : Bool)
      (buffer : List LogParts) (sequenceToken : String) (req : PutLogEventsInput),
      buildRequest env useJson buffer sequenceToken = Except.ok req →
      returnedToken (putLogEvents req) = none →
      (sendToCloudWatch env putLogEvents useJson buffer sequenceToken).outcome =
        Except.error Panic.nilDereference) := by
  refine ⟨by decide, by decide, by decide, by decide, by decide, ?_⟩
  intro env putLogEvents useJson buffer sequenceToken req hb ht
  rcases sendToCloudWatch_cases env putLogEvents useJson buffer sequenceToken with
    ⟨p, hb', _⟩ | ⟨req', _, _, hs⟩ | ⟨req', tok, hb', ht', _⟩
  · rw [hb] at hb'; cases hb'
  · rw [hs]
  · rw [hb] at hb'
    injection hb' with hb'
    subst hb'
    rw [ht] at ht'
    cases ht'

/-! ## C5: a tick on an empty accumulator -/

/-- Under the contract of `sort.Slice` a request has one event per record. -/
theorem buildRequest_length (env : Env) (hsort : SortSliceSpec env.sortSlice) (useJson : Bool)
    (buffer : List LogParts) (sequenceToken : String) (req : PutLogEventsInput)
    (h : buildRequest env useJson buffer sequenceToken = Except.ok req) :
    req.LogEvents.length = buffer.length := by
  rw [buildRequest_ok_iff] at h
  obtain ⟨hperm, _⟩ := sortedBuffer_sorted env hsort buffer h.1
  have hf := (encodeAll_ok_iff env useJson _ _).1 h.2.1
  rw [← hf.length_eq, hperm.length_eq]

/-- C5. In the aggregator loop a timer tick on an empty accumulator leaves the
whole state as it is: no append call, same accumulator, same `sequenceToken`.
Hence, under the contract of `sort.Slice`, every append request issued in any
run of the loop from its initial state carries at least one event. -/
theorem C5_empty_tick_no_dispatch (env : Env) (hsort : SortSliceSpec env.sortSlice)
    (remote : Nat → PutLogEventsInput → CallResult) (useJson : Bool) :
    (∀ s : LoopState, s.loglist = [] →
        loopStep env remote useJson s LoopEvent.tick = s) ∧
      (∀ (events : List LoopEvent),
        ∀ req ∈ (loopRun env remote useJson LoopState.init events).requests,
          1 ≤ req.LogEvents.length) := by
  refine ⟨fun s h => loopStep_tick_empty env remote useJson s h, ?_⟩
  intro events
  refine loopRun_invariant env remote useJson
    (fun s => ∀ req ∈ s.requests, 1 ≤ req.LogEvents.length) ?_ events LoopState.init ?_
  · intro s e _ hP
    cases e with
    | logParts r => exact hP
    | tick =>
      by_cases hl : s.loglist = []
      · rw [loopStep_tick_empty env remote useJson s hl]; exact hP
      · have hpos : 1 ≤ s.loglist.length := by
          cases hll : s.loglist with
          | nil => exact absurd hll hl
          | cons a l => simp
        rcases loopStep_tick_cases env remote useJson s hl with
          ⟨p, _, hs⟩ | ⟨req, hb, _, hs⟩ | ⟨req, tok, hb, _, hs⟩
        · rw [hs]; exact hP
        · rw [hs]
          intro q hq
          rcases List.mem_append.1 hq with hq | hq
          · exact hP q hq
          · rw [List.mem_singleton.1 hq, buildRequest_length env hsort _ _ _ _ hb]
            exact hpos
        · rw [hs]
          intro q hq
          rcases List.mem_append.1 hq with hq | hq
          · exact hP q hq
          · rw [List.mem_singleton.1 hq, buildRequest_length env hsort _ _ _ _ hb]
            exact hpos
  · intro req hreq
    cases hreq

/-- C5 with the stable sort: ticks before, between and after one record give
exactly one request, with one event. -/
theorem C5_empty_tick_no_dispatch_witness :
    SortSliceSpec stableEnv.sortSlice ∧
    ((∀ s : LoopState, s.loglist = [] →
        loopStep stableEnv acceptingRemote false s LoopEvent.tick = s) ∧
      (∀ (events : List LoopEvent),
        ∀ req ∈ (loopRun stableEnv acceptingRemote false LoopState.init events).requests,
          1 ≤ req.LogEvents.length)) ∧
    (loopRun stableEnv acceptingRemote false LoopState.init
      [LoopEvent.tick, LoopEvent.tick, LoopEvent.logParts (mkRecord 36000000000000 "a"),
       LoopEvent.tick, LoopEvent.tick, LoopEvent.tick]).requests.map
        (fun req => req.LogEvents.map (fun e => e.Message)) = [["a"]] :=
  ⟨insertionSortStable_spec,
    C5_empty_tick_no_dispatch stableEnv insertionSortStable_spec acceptingRemote false,
    by decide⟩

/-! ## C8: the batches handed to the dispatcher -/

/-- A dead process takes no further step. -/
theorem loopRun_crashed (env : Env) (remote : Nat → PutLogEventsInput → CallResult)
    (useJson : Bool) (s : LoopState) (p : Panic) (h : s.crashed = some p) :
    ∀ events : List LoopEvent, loopRun env remote useJson s events = s
  | [] => rfl
  | e :: es => by simp [loopRun, h]

/-- Running two sequences of events one after the other. -/
theorem loopRun_append (env : Env) (remote : Nat → PutLogEventsInput → CallResult)
    (useJson : Bool) :
    ∀ (es1 es2 : List LoopEvent) (s : LoopState),
      loopRun env remote useJson s (es1 ++ es2) =
        loopRun env remote useJson (loopRun env remote useJson s es1) es2
  | [], _, _ => rfl
  | e :: es1, es2, s => by
    cases hc : s.crashed with
    | some p =>
      rw [loopRun_crashed env remote useJson s p hc, loopRun_crashed env remote useJson s p hc,
        loopRun_crashed env remote useJson s p hc]
    | none =>
      simp only [List.cons_append, loopRun, hc, Option.isSome_none, Bool.false_eq_true, if_false]
      exact loopRun_append env remote useJson es1 es2 _

/-- The records handed over so far, followed by the accumulator, are the
records dequeued so far; after a panic the records handed over are a prefix
of them. -/
theorem loopRun_handed (env : Env) (remote : Nat → PutLogEventsInput → CallResult)
    (useJson : Bool) :
    ∀ (events : List LoopEvent) (s : LoopState), s.crashed = none →
      ((loopRun env remote useJson s events).crashed = none →
          (loopRun env remote useJson s events).handed.flatten ++
              (loopRun env remote useJson s events).loglist =
            s.handed.flatten ++ s.loglist ++ dequeued events) ∧
        (loopRun env remote useJson s events).handed.flatten <+:
          s.handed.flatten ++ s.loglist ++ dequeued events
  | [], s, _ => by
    refine ⟨fun _ => ?_, ?_⟩
    · simp only [loopRun, dequeued, List.append_nil]
    · simp only [loopRun, dequeued, List.append_nil]
      exact List.prefix_append _ _
  | LoopEvent.logParts r :: es, s, hc => by
    have ih := loopRun_handed env remote useJson es
      (loopStep env remote useJson s (LoopEvent.logParts r)) hc
    simp only [loopRun, hc, Option.isSome_none, Bool.false_eq_true, if_false, dequeued]
    simp only [loopStep, List.append_assoc, List.singleton_append] at ih ⊢
    exact ih
  | LoopEvent.tick :: es, s, hc => by
    simp only [loopRun, hc, Option.isSome_none, Bool.false_eq_true, if_false, dequeued]
    by_cases hl : s.loglist = []
    · rw [loopStep_tick_empty env remote useJson s hl]
      exact loopRun_handed env remote useJson es s hc
    · rcases loopStep_tick_cases env remote useJson s hl with
        ⟨p, _, hs⟩ | ⟨req, _, _, hs⟩ | ⟨req, tok, _, _, hs⟩
      · rw [hs, loopRun_crashed env remote useJson _ p rfl]
        refine ⟨(fun h => by cases h), ?_⟩
        simp only [List.flatten_append, List.flatten_cons, List.flatten_nil, List.append_nil]
        exact List.prefix_append _ _
      · rw [hs, loopRun_crashed env remote useJson _ Panic.nilDereference rfl]
        refine ⟨(fun h => by cases h), ?_⟩
        simp only [List.flatten_append, List.flatten_cons, List.flatten_nil, List.append_nil]
        exact List.prefix_append _ _
      · have ih := loopRun_handed env remote useJson es
          (loopStep env remote useJson s LoopEvent.tick) (by rw [hs])
        rw [hs] at ih ⊢
        simpa only [List.flatten_append, List.flatten_cons, List.flatten_nil, List.append_nil]
          using ih

/-- C8. In the aggregator loop, a dequeued record is appended at the end of
the accumulator and nothing else changes (no dispatch); a tick on a non-empty
accumulator hands exactly the accumulated records, in arrival order, to
`sendToCloudWatch` as one batch, and the accumulator is empty when the call
returns. Hence after every finite sequence of events the batches handed over
are non-empty, their concatenation is a prefix of the dequeued sequence, while
the process lives that concatenation followed by the accumulator is the whole
dequeued sequence (each record in exactly one place), and after a further tick
every dequeued record has been handed over. -/
theorem C8_batches_partition_dequeued (env : Env)
    (remote : Nat → PutLogEventsInput → CallResult) (useJson : Bool) :
    (∀ (s : LoopState) (r : LogParts),
        loopStep env remote useJson s (LoopEvent.logParts r) =
          { loglist := s.loglist ++ [r], sequenceToken := s.sequenceToken,
            requests := s.requests, handed := s.handed, crashed := s.crashed }) ∧
      (∀ s : LoopState, s.loglist ≠ [] →
        (loopStep env remote useJson s LoopEvent.tick).handed = s.handed ++ [s.loglist] ∧
          ((loopStep env remote useJson s LoopEvent.tick).crashed = none →
            (loopStep env remote useJson s LoopEvent.tick).loglist = [])) ∧
      (∀ events : List LoopEvent,
        (loopRun env remote useJson LoopState.init events).handed.flatten <+: dequeued events ∧
          (∀ b ∈ (loopRun env remote useJson LoopState.init events).handed, b ≠ []) ∧
          ((loopRun env remote useJson LoopState.init events).crashed = none →
            (loopRun env remote useJson LoopState.init events).handed.flatten ++
                (loopRun env remote useJson LoopState.init events).loglist =
              dequeued events) ∧
          ((loopRun env remote useJson LoopState.init (events ++ [LoopEvent.tick])).crashed =
              none →
            (loopRun env remote useJson LoopState.init
              (events ++ [LoopEvent.tick])).handed.flatten = dequeued events)) := by
  refine ⟨fun s r => rfl, ?_, ?_⟩
  · intro s hl
    rcases loopStep_tick_cases env remote useJson s hl with
      ⟨p, _, hs⟩ | ⟨req, _, _, hs⟩ | ⟨req, tok, _, _, hs⟩
    · rw [hs]; exact ⟨rfl, fun h => by cases h⟩
    · rw [hs]; exact ⟨rfl, fun h => by cases h⟩
    · rw [hs]; exact ⟨rfl, fun _ => rfl⟩
  · intro events
    have hrun := loopRun_handed env remote useJson events LoopState.init rfl
    simp only [LoopState.init, List.flatten_nil, List.nil_append] at hrun
    refine ⟨hrun.2, ?_, hrun.1, ?_⟩
    · refine loopRun_invariant env remote useJson (fun s => ∀ b ∈ s.handed, b ≠ []) ?_
        events LoopState.init ?_
      · intro s e _ hP
        cases e with
        | logParts r => exact hP
        | tick =>
          by_cases hl : s.loglist = []
          · rw [loopStep_tick_empty env remote useJson s hl]; exact hP
          · have hmem : ∀ b ∈ s.handed ++ [s.loglist], b ≠ [] := by
              intro b hb
              rcases List.mem_append.1 hb with hb | hb
              · exact hP b hb
              · rw [List.mem_singleton.1 hb]; exact hl
            rcases loopStep_tick_cases env remote useJson s hl with
              ⟨p, _, hs⟩ | ⟨req, _, _, hs⟩ | ⟨req, tok, _, _, hs⟩
            · rw [hs]; exact hmem
            · rw [hs]; exact hmem
            · rw [hs]; exact hmem
      · intro b hb
        cases hb
    · intro hlive
      have happ := loopRun_append env remote useJson events [LoopEvent.tick] LoopState.init
      have hrun2 := loopRun_handed env remote useJson (events ++ [LoopEvent.tick])
        LoopState.init rfl
      have hdq : ∀ es : List LoopEvent, dequeued (es ++ [LoopEvent.tick]) = dequeued es := by
        intro es
        induction es with
        | nil => rfl
        | cons e es ih => cases e <;> simp [dequeued, ih]
      have h0 : LoopState.init.handed.flatten ++ LoopState.init.loglist = [] := rfl
      rw [h0, List.nil_append, hdq] at hrun2
      have hflat := hrun2.1 hlive
      -- the accumulator is empty after the last tick
      have hempty : (loopRun env remote useJson LoopState.init
          (events ++ [LoopEvent.tick])).loglist = [] := by
        rw [happ] at hlive ⊢
        generalize loopRun env remote useJson LoopState.init events = s at hlive ⊢
        cases hc : s.crashed with
        | some p =>
          rw [loopRun_crashed env remote useJson s p hc] at hlive
          rw [hc] at hlive; cases hlive
        | none =>
          simp only [loopRun, hc, Option.isSome_none, Bool.false_eq_true, if_false] at hlive ⊢
          by_cases hl : s.loglist = []
          · rw [loopStep_tick_empty env remote useJson s hl]; exact hl
          · rcases loopStep_tick_cases env remote useJson s hl with
              ⟨p, _, hs⟩ | ⟨req, _, _, hs⟩ | ⟨req, tok, _, _, hs⟩
            · rw [hs] at hlive; cases hlive
            · rw [hs] at hlive; cases hlive
            · rw [hs]
      rw [hempty, List.append_nil] at hflat
      exact hflat

/-! ## C3: the chain of sequence tokens -/

/-- The request built by `sendToCloudWatch` carries `carried sequenceToken`. -/
theorem buildRequest_token (env : Env) (useJson : Bool) (buffer : List LogParts)
    (sequenceToken : String) (req : PutLogEventsInput)
    (h : buildRequest env useJson buffer sequenceToken = Except.ok req) :
    req.SequenceToken = carried sequenceToken := by
  rw [buildRequest_ok_iff] at h
  exact h.2.2.2.2

/-- The invariant of the loop behind C3: the first request carries no token,
every later request carries what its predecessor's reply returned, and while
the process lives `sequenceToken` is empty before the first request and the
token of the last reply afterwards. -/
theorem loopRun_token_chain (env : Env) (remote : Nat → PutLogEventsInput → CallResult)
    (useJson : Bool) (events : List LoopEvent) :
    (∀ first, (loopRun env remote useJson LoopState.init events).requests[0]? = some first →
        first.SequenceToken = none) ∧
      (∀ n prev cur,
        (loopRun env remote useJson LoopState.init events).requests[n]? = some prev →
        (loopRun env remote useJson LoopState.init events).requests[n + 1]? = some cur →
        ∃ tok, returnedToken (remote n prev) = some tok ∧ cur.SequenceToken = carried tok) ∧
      ((loopRun env remote useJson LoopState.init events).crashed = none →
        ((loopRun env remote useJson LoopState.init events).requests = [] ∧
            (loopRun env remote useJson LoopState.init events).sequenceToken = "") ∨
          ∃ m last, (loopRun env remote useJson LoopState.init events).requests.length = m + 1 ∧
            (loopRun env remote useJson LoopState.init events).requests[m]? = some last ∧
            returnedToken (remote m last) =
              some (loopRun env remote useJson LoopState.init events).sequenceToken) := by
  refine loopRun_invariant env remote useJson
    (fun s =>
      (∀ first, s.requests[0]? = some first → first.SequenceToken = none) ∧
      (∀ n prev cur, s.requests[n]? = some prev → s.requests[n + 1]? = some cur →
        ∃ tok, returnedToken (remote n prev) = some tok ∧ cur.SequenceToken = carried tok) ∧
      (s.crashed = none →
        (s.requests = [] ∧ s.sequenceToken = "") ∨
          ∃ m last, s.requests.length = m + 1 ∧ s.requests[m]? = some last ∧
            returnedToken (remote m last) = some s.sequenceToken))
    ?_ events LoopState.init ?_
  · intro s e hc ⟨hfirst, hchain, hlast⟩
    have hlast' := hlast hc
    -- what appending a request built from the current token preserves
    have happend : ∀ req, req.SequenceToken = carried s.sequenceToken →
        (∀ first, (s.requests ++ [req])[0]? = some first → first.SequenceToken = none) ∧
        (∀ n prev cur, (s.requests ++ [req])[n]? = some prev →
          (s.requests ++ [req])[n + 1]? = some cur →
          ∃ tok, returnedToken (remote n prev) = some tok ∧ cur.SequenceToken = carried tok) := by
      intro req hreq
      rcases hlast' with ⟨hnil, htok⟩ | ⟨m, last, hlen, hm, hret⟩
      · rw [hnil]
        constructor
        · intro first h0
          simp only [List.nil_append, List.getElem?_cons_zero, Option.some.injEq] at h0
          rw [← h0, hreq, htok]
          rfl
        · intro n prev cur _ h1
          simp at h1
      · constructor
        · intro first h0
          rw [List.getElem?_append_left (by omega)] at h0
          exact hfirst first h0
        · intro n prev cur h0 h1
          by_cases hn : n + 1 < s.requests.length
          · rw [List.getElem?_append_left (by omega)] at h0
            rw [List.getElem?_append_left hn] at h1
            exact hchain n prev cur h0 h1
          · by_cases hn' : n + 1 = s.requests.length
            · have hnm : n = m := by omega
              subst hnm
              rw [List.getElem?_append_left (by omega), hm] at h0
              injection h0 with h0
              subst h0
              rw [hn', List.getElem?_concat_length] at h1
              injection h1 with h1
              subst h1
              exact ⟨s.sequenceToken, hret, hreq⟩
            · have : (s.requests ++ [req])[n + 1]? = none := by
                apply List.getElem?_eq_none
                simp only [List.length_append, List.length_singleton]
                omega
              rw [this] at h1
              cases h1
    cases e with
    | logParts r => exact ⟨hfirst, hchain, fun _ => hlast'⟩
    | tick =>
      by_cases hl : s.loglist = []
      · rw [loopStep_tick_empty env remote useJson s hl]
        exact ⟨hfirst, hchain, hlast⟩
      · rcases loopStep_tick_cases env remote useJson s hl with
          ⟨p, _, hs⟩ | ⟨req, hb, _, hs⟩ | ⟨req, tok, hb, ht, hs⟩
        · rw [hs]
          exact ⟨hfirst, hchain, (fun h => by cases h)⟩
        · rw [hs]
          obtain ⟨h1, h2⟩ := happend req (buildRequest_token env useJson _ _ _ hb)
          exact ⟨h1, h2, (fun h => by cases h)⟩
        · rw [hs]
          obtain ⟨h1, h2⟩ := happend req (buildRequest_token env useJson _ _ _ hb)
          refine ⟨h1, h2, fun _ => Or.inr ⟨s.requests.length, req, ?_, ?_, ht⟩⟩
          · simp
          · exact List.getElem?_concat_length _ _
  · refine ⟨?_, ?_, fun _ => Or.inl ⟨rfl, rfl⟩⟩
    · intro first h
      simp [LoopState.init] at h
    · intro n prev cur h
      simp [LoopState.init] at h

/-- C3. In every run of the loop from its initial state (`sequenceToken`
empty) against a remote service whose tokens are never the empty string, the
first append request carries no sequence token, and every later request
follows a reply that returned a token and carries exactly that token. -/
theorem C3_token_chain (env : Env) (remote : Nat → PutLogEventsInput → CallResult)
    (useJson : Bool) (events : List LoopEvent)
    (hne : ∀ n req tok, returnedToken (remote n req) = some tok → tok ≠ "") :
    (∀ first, (loopRun env remote useJson LoopState.init events).requests[0]? = some first →
        first.SequenceToken = none) ∧
      (∀ n prev cur,
        (loopRun env remote useJson LoopState.init events).requests[n]? = some prev →
        (loopRun env remote useJson LoopState.init events).requests[n + 1]? = some cur →
        ∃ tok, returnedToken (remote n prev) = some tok ∧ cur.SequenceToken = some tok) := by
  obtain ⟨h1, h2, _⟩ := loopRun_token_chain env remote useJson events
  refine ⟨h1, ?_⟩
  intro n prev cur hp hc
  obtain ⟨tok, htok, hcur⟩ := h2 n prev cur hp hc
  refine ⟨tok, htok, ?_⟩
  rw [hcur]
  unfold carried
  rw [if_pos (hne n prev tok htok)]

/-- C3 at two flush windows with one record each, the service returning
`"tokenA"` to the first append: two append calls, the first without a token,
the second carrying `"tokenA"`. -/
theorem C3_token_chain_witness :
    (∀ n req tok, returnedToken (acceptingRemote n req) = some tok → tok ≠ "") ∧
    ((∀ first,
        (loopRun stableEnv acceptingRemote false LoopState.init twoWindows).requests[0]? =
          some first → first.SequenceToken = none) ∧
      (∀ n prev cur,
        (loopRun stableEnv acceptingRemote false LoopState.init twoWindows).requests[n]? =
          some prev →
        (loopRun stableEnv acceptingRemote false LoopState.init twoWindows).requests[n + 1]? =
          some cur →
        ∃ tok, returnedToken (acceptingRemote n prev) = some tok ∧
          cur.SequenceToken = some tok)) ∧
    (loopRun stableEnv acceptingRemote false LoopState.init twoWindows).requests =
      [{ LogGroupName := "group", LogStreamName := "stream",
         LogEvents := [{ Message := "first", Timestamp := 36000000 }],
         SequenceToken := none },
       { LogGroupName := "group", LogStreamName := "stream",
         LogEvents := [{ Message := "second", Timestamp := 36001000 }],
         SequenceToken := some "tokenA" }] ∧
    (loopRun stableEnv acceptingRemote false LoopState.init twoWindows).crashed = none ∧
    (loopRun quickSortEnv acceptingRemote false LoopState.init twoWindows).requests.map
      (fun req => req.SequenceToken) = [none, some "tokenA"] :=
  have hne : ∀ n req tok, returnedToken (acceptingRemote n req) = some tok → tok ≠ "" := by
    intro n req tok h
    match n, h with
    | 0, h => simp [acceptingRemote, okReply, returnedToken] at h; rw [← h]; decide
    | 1, h => simp [acceptingRemote, okReply, returnedToken] at h; rw [← h]; decide
    | _ + 2, h => simp [acceptingRemote, okReply, returnedToken] at h; rw [← h]; decide
  ⟨hne, C3_token_chain stableEnv acceptingRemote false twoWindows hne, by decide, by decide,
    by decide⟩


end SyslogBridge
